import Mathlib

/-!
Verification of the duplicate-detection engine of ex-manga-deduplication.

Shallow embedding of the engine described in `spec.md`, translated from
`src/core/scanner.py` (class `Scanner`, chiefly `_detect_duplicates` and
`_process_single_comic`), `src/core/cache_manager.py` (class `CacheManager`)
and `src/core/image_hash.py` (class `ImageHasher`).

Modelling conventions
* An image fingerprint is modelled by its numeric value (`HashVal := Nat`).
  The source keeps each fingerprint both as a lowercase fixed-width hex
  string (in `ComicInfo.image_hashes`) and as the packed 64-bit integer
  derived from that very string (in `ComicInfo.image_hash_array`); the two
  representations are kept in lock-step by `_process_single_comic`, so a
  single `Nat` stands for both.  The canonical hex string of a fingerprint
  is recovered by `hexStr` where the source compares strings.
* Python `set`s whose iteration order is never observed are modelled either
  by `Finset` (when only cardinality/membership is used) or by
  insertion-ordered duplicate-free lists.
* Python `dict`s are modelled by association lists with insert-or-replace
  update; the source never relies on dict iteration order except for
  iterating all items, which the association list reproduces.
* Python object identity of `DuplicateGroup` objects (the comic→group map
  stores references, `list.remove` compares them) is modelled by a fresh
  arena id `gid` given to every constructed group.
* Hamming distance `np.bitwise_count(np.bitwise_xor a b)` is
  `popCount (Nat.xor a b)`.
-/

/-- Population count, fuelled so that the kernel can evaluate it by
structural recursion (the fuel `n` bounds the number of halvings). -/
def popCountAux : Nat → Nat → Nat
  | 0, _ => 0
  | _ + 1, 0 => 0
  | fuel + 1, n + 1 => (n + 1) % 2 + popCountAux fuel ((n + 1) / 2)

/-- Number of set bits of a natural number. -/
def popCount (n : Nat) : Nat := popCountAux n n

abbrev HashVal := Nat

/-- Bitwise Hamming distance between two packed fingerprints:
`np.bitwise_count(np.bitwise_xor(h1, h2))` in the source. -/
def hammingDistNat (a b : HashVal) : Nat := popCount (Nat.xor a b)

/-- Lowercase hex digit for a value `0..15`. -/
def hexDigitChar (n : Nat) : Char :=
  if n < 10 then Char.ofNat (48 + n) else Char.ofNat (87 + n)

/-- The canonical 16-character lowercase hex string of a 64-bit fingerprint,
as produced by `str(imagehash.ImageHash)` and stored in
`ComicInfo.image_hashes` by the source. -/
def hexStr (n : HashVal) : String :=
  String.mk ((List.range 16).map (fun k => hexDigitChar (n / 16 ^ (15 - k) % 16)))

/-- An evidence triple `(hash1, hash2, distance)` as stored in
`DuplicateGroup.similar_hash_groups`. -/
abbrev Ev := HashVal × HashVal × Nat

/-- Evidence pair order is normalized: the lexicographically smaller hex
string comes first (`if hash1 > hash2: hash1, hash2 = hash2, hash1`). -/
def NormEv (e : Ev) : Prop := hexStr e.1 ≤ hexStr e.2.1

/-- Mirror of the dataclass `ComicInfo` in scanner.py.  The per-image
filenames are irrelevant to detection (the source only ever reads
`image_hashes[idx][1]`), so `imageHashes` keeps just the fingerprints, in
page order; `image_hash_array` is the same list (see module comment).
`size` and `checked` are carried for completeness. -/
structure ComicInfo where
  path : String
  size : Nat
  mtime : Nat
  imageHashes : List HashVal
  cacheKey : String
  comicError : Option String := none
deriving DecidableEq, Repr

/-- Mirror of the dataclass `DuplicateGroup`, plus the arena id `gid`
standing for Python object identity (see module comment). -/
structure DuplicateGroup where
  gid : Nat
  comics : List ComicInfo
  similarHashGroups : Finset Ev
deriving DecidableEq

/-- Mirror of the dataclass `CachedDuplicateGroup` (the on-disk form of a
duplicate group inside `index.db`).  The evidence set is modelled as a list
because the replay loop only iterates it. -/
structure CachedDuplicateGroup where
  comicCacheKeys : List String
  similarHashGroups : List Ev
deriving DecidableEq, Repr

/-- The contents of the pickle file `index.db` as read at the start of
`_detect_duplicates` (lines 440-450): per-comic match-count vectors, the
materialized duplicate groups, and the thresholds they were written with
(`None` when the key is absent from the pickle dict). -/
structure IndexCache where
  simComicCacheDict : List (String × List Nat)
  cachedDuplicateGroups : List CachedDuplicateGroup
  similarityThreshold : Option Nat
  minSimilarImages : Option Nat
deriving Repr

/-- The configuration values `_detect_duplicates` reads from
`ConfigManager`. -/
structure DetectConfig where
  similarityThreshold : Nat
  minSimilarImages : Nat
  minImageCount : Nat
  maxImageCount : Option Nat
deriving Repr

/-- One slot of the flat corpus array: the source keeps three parallel
arrays `all_hashes`, `hash_to_comic_idx`, `hash_to_image_idx`; an `Entry`
bundles the slot of each. -/
structure Entry where
  comicIdx : Nat
  imageIdx : Nat
  hash : HashVal
deriving DecidableEq, Repr

/-- Association-list lookup, standing for Python `dict.get` /
`dict.__getitem__`. -/
def alookup {α β : Type} [DecidableEq α] (k : α) : List (α × β) → Option β
  | [] => none
  | (k', v) :: t => if k' = k then some v else alookup k t

/-- Association-list insert-or-replace, standing for Python
`dict.__setitem__`. -/
def aset {α β : Type} [DecidableEq α] (k : α) (v : β) : List (α × β) → List (α × β)
  | [] => [(k, v)]
  | (k', v') :: t => if k' = k then (k, v) :: t else (k', v') :: aset k v t

/-- `np.any(hamming_distances <= similarity_threshold)` against the
blacklist array (scanner.py lines 601-606): is `h` within `T` of some
blacklist fingerprint? -/
def isBlacklisted (blacklist : List HashVal) (T : Nat) (h : HashVal) : Bool :=
  blacklist.any (fun b => decide (hammingDistNat h b ≤ T))

/-- The valid-comic filter at the top of `_detect_duplicates`
(lines 399-414): drop comics with an error or no images, and apply the
configured inclusive image-count range. -/
def validComicsOf (cfg : DetectConfig) (comicInfos : List ComicInfo) : List ComicInfo :=
  comicInfos.filter (fun c =>
    c.comicError.isNone && !c.imageHashes.isEmpty &&
    decide (cfg.minImageCount ≤ c.imageHashes.length) &&
    (match cfg.maxImageCount with
     | none => true
     | some m => decide (c.imageHashes.length ≤ m)))

/-- The two cache-invalidation rules applied right after loading `index.db`
(scanner.py lines 452-467): discard cached groups when the
minimum-similar-images setting decreased (or was absent), and discard both
cached groups and match-count vectors when the similarity threshold
increased (or was absent).  `none` for the whole cache models a failed
load, for which the `except` branch leaves both structures empty. -/
def minLoweredCheck (minSimilarImages : Nat) (stored : Option Nat) : Bool :=
  match stored with
  | none => true
  | some m => decide (minSimilarImages < m)

def thresholdWidenedCheck (similarityThreshold : Nat) (stored : Option Nat) : Bool :=
  match stored with
  | none => true
  | some t => decide (t < similarityThreshold)

def invalidatedCache (similarityThreshold minSimilarImages : Nat)
    (cache : Option IndexCache) :
    List (String × List Nat) × List CachedDuplicateGroup :=
  match cache with
  | none => ([], [])
  | some data =>
    let groups1 := if minLoweredCheck minSimilarImages data.minSimilarImages then []
                   else data.cachedDuplicateGroups
    if thresholdWidenedCheck similarityThreshold data.similarityThreshold then ([], [])
    else (data.simComicCacheDict, groups1)

/-- The per-group membership of the hash → comic-cache-keys dict built at
scanner.py lines 490-496, read extensionally: the keys of the group members
that contain fingerprint `h`.  (The source builds a dict of sets by
iteration; only membership, emptiness and the all-pairs-equal test over it
are ever used.) -/
def hashOwnerKeys (comics : List ComicInfo) (h : HashVal) : List String :=
  (comics.filter (fun c => c.imageHashes.contains h)).map (·.cacheKey)

/-- One iteration of the evidence-filtering loop of the cached-group
replay (scanner.py lines 501-541), acting on the accumulator
`(valid_similar_hashes, valid_similar_hash_groups)`.  Note the faithful
reproduction of the source's empty-blacklist shortcut (lines 519-521): the
evidence pair is appended to `valid_similar_hash_groups` but its endpoints
are NOT added to `valid_similar_hashes`. -/
def replayEvStep (T : Nat) (blacklist : List HashVal)
    (validComicsInGroup : List ComicInfo) (acc : List HashVal × List Ev) (e : Ev) :
    List HashVal × List Ev :=
  let h1 := e.1; let h2 := e.2.1; let dist := e.2.2
  if dist ≤ T then
    if (hashOwnerKeys validComicsInGroup h1).isEmpty ||
       (hashOwnerKeys validComicsInGroup h2).isEmpty then acc
    else if (hashOwnerKeys validComicsInGroup h1).all (fun k1 =>
              (hashOwnerKeys validComicsInGroup h2).all (fun k2 => k1 == k2)) then acc
    else if blacklist.isEmpty then (acc.1, acc.2 ++ [(h1, h2, dist)])
    else if !(isBlacklisted blacklist T h1) && !(isBlacklisted blacklist T h2) then
      (acc.1 ++ [h1, h2], acc.2 ++ [(h1, h2, dist)])
    else acc
  else acc

/-- Replay of one cached duplicate group against the current comic set
(scanner.py lines 478-563).  Returns `none` when the group is dropped
(fewer than 2 surviving members before or after the minimum-similar-images
check), otherwise the kept member list and filtered evidence list. -/
def replayCachedGroup (T minSim : Nat) (blacklist : List HashVal)
    (validComicMap : List (String × ComicInfo)) (g : CachedDuplicateGroup) :
    Option (List ComicInfo × List Ev) :=
  let validComicsInGroup := g.comicCacheKeys.filterMap (fun k => alookup k validComicMap)
  if validComicsInGroup.length < 2 then none
  else
    let filtered := g.similarHashGroups.foldl
      (replayEvStep T blacklist validComicsInGroup) ([], [])
    let validSimilarHashes := filtered.1
    let validSimilarHashGroups := filtered.2
    let valid2 := validComicsInGroup.filter (fun c =>
      decide (minSim ≤ (c.imageHashes.filter (fun h => validSimilarHashes.contains h)).length))
    if valid2.length < 2 then none
    else some (valid2, validSimilarHashGroups)

/-- All still-valid cached duplicate groups, in cache order
(`valid_cached_groups` in the source). -/
def replayedGroups (T minSim : Nat) (blacklist : List HashVal)
    (validComicMap : List (String × ComicInfo))
    (cachedGroups : List CachedDuplicateGroup) : List (List ComicInfo × List Ev) :=
  cachedGroups.filterMap (replayCachedGroup T minSim blacklist validComicMap)

/-- `valid_comic_map` (scanner.py line 476). -/
def validComicMapOf (validComics : List ComicInfo) : List (String × ComicInfo) :=
  validComics.map (fun c => (c.cacheKey, c))

/-- `skipped_comic_cache_keys` (scanner.py lines 473, 566-568 and 576-578):
members of every still-valid cached group, plus every comic whose cached
match-count vector is everywhere below the minimum-similar-images setting
(`np.all` of an empty vector is true, as is `List.all`). -/
def skippedKeysOf (minSim : Nat) (replayed : List (List ComicInfo × List Ev))
    (dict0 : List (String × List Nat)) : List String :=
  replayed.flatMap (fun r => r.1.map (·.cacheKey)) ++
    ((dict0.filter (fun kv => kv.2.all (fun n => decide (n < minSim)))).map (·.1))

/-- The processing order (scanner.py lines 581-584): `list.sort` with a 0/1
key is a stable partition putting the skippable comics last.  The source
only sorts when the skip set is non-empty; when it is empty the two sides
coincide with the original list. -/
def sortedComicsOf (validComics : List ComicInfo) (skipped : List String) :
    List ComicInfo :=
  if skipped.isEmpty then validComics
  else validComics.filter (fun c => !skipped.contains c.cacheKey) ++
       validComics.filter (fun c => skipped.contains c.cacheKey)

/-- The surviving fingerprints of one comic with their original image
indices (scanner.py lines 596-610): `hash_index[~blacklist_mask]` paired
with `hash_array[~blacklist_mask]`.  With an empty blacklist the source
skips the masking, which equals filtering with an always-false predicate. -/
def comicSurvivors (blacklist : List HashVal) (T : Nat) (c : ComicInfo) :
    List (Nat × HashVal) :=
  c.imageHashes.enum.filter (fun p => !(isBlacklisted blacklist T p.2))

/-- The flat corpus array with its parallel index arrays
(scanner.py lines 586-634), one `Entry` per kept slot, comic by comic in
processing order. -/
def buildEntries (blacklist : List HashVal) (T : Nat) (comics : List ComicInfo) :
    List Entry :=
  comics.enum.flatMap (fun p =>
    (comicSurvivors blacklist T p.2).map (fun q => ⟨p.1, q.1, q.2⟩))

/-- `hash_to_comic_idx[p]`. -/
def hashToComicIdx (entries : List Entry) (p : Nat) : Nat :=
  ((entries.get? p).map (·.comicIdx)).getD 0

/-- `hash_to_image_idx[p]`. -/
def hashToImageIdx (entries : List Entry) (p : Nat) : Nat :=
  ((entries.get? p).map (·.imageIdx)).getD 0

/-- One row of the distance computation (scanner.py lines 696-709): the
positions of every corpus fingerprint within threshold of `h`, paired with
the distance (`similarity_results` stores `(idx, hamming_distances[idx])`). -/
def similarList (T : Nat) (entries : List Entry) (h : HashVal) : List (Nat × Nat) :=
  entries.enum.filterMap (fun pe =>
    if hammingDistNat h pe.2.hash ≤ T then some (pe.1, hammingDistNat h pe.2.hash)
    else none)

/-- One update of `similar_comic_index_dict` (scanner.py lines 712-724):
record that local image `li` of the source comic matched corpus position
`p` belonging to comic `j`. -/
def dictAdd (d : List (Nat × Finset Nat × Finset Nat)) (j li p : Nat) :
    List (Nat × Finset Nat × Finset Nat) :=
  if d.any (fun e => decide (e.1 = j)) then
    d.map (fun e => if e.1 = j then (j, insert li e.2.1, insert p e.2.2) else e)
  else d ++ [(j, ({li}, {p}))]

/-- `similar_comic_index_dict` for the source comic at index `i` whose
surviving fingerprints are `localHashes` (scanner.py lines 693-724): maps
each other comic index to (set of matching local image indices, set of
matching corpus positions). -/
def similarComicIndexDict (T : Nat) (entries : List Entry) (i : Nat)
    (localHashes : List HashVal) : List (Nat × Finset Nat × Finset Nat) :=
  localHashes.enum.foldl
    (fun d lh =>
      (similarList T entries lh.2).foldl
        (fun d pd =>
          if hashToComicIdx entries pd.1 ≠ i then
            dictAdd d (hashToComicIdx entries pd.1) lh.1 pd.1
          else d)
        d)
    []

/-- The match-count vector `counts` (scanner.py lines 727-732): the minimum
of the two distinct-match set sizes, per dict entry in insertion order. -/
def countsOfDict (d : List (Nat × Finset Nat × Finset Nat)) : List Nat :=
  d.map (fun e => min e.2.1.card e.2.2.card)

/-- `valid_similar_comics` (scanner.py lines 738-745): the neighbor comic
indices whose minimum distinct-match count reaches the setting. -/
def validSimilarComics (minSim : Nat) (d : List (Nat × Finset Nat × Finset Nat)) :
    List Nat :=
  (d.filter (fun e => decide (minSim ≤ min e.2.1.card e.2.2.card))).map (·.1)

/-- The evidence-pair normalization of scanner.py lines 776-777:
`if hash1 > hash2: hash1, hash2 = hash2, hash1` on the hex strings. -/
def normPair (h1 h2 : HashVal) (d : Nat) : Ev :=
  if hexStr h2 < hexStr h1 then (h2, h1, d) else (h1, h2, d)

/-- `all_similar_groups` (scanner.py lines 750-778): for every linked
neighbor `j`, every similar pair between a surviving fingerprint of the
source comic `c` and a corpus fingerprint of comic `j`, endpoints read back
through `image_hashes` via the index arrays and normalized.  (The source
tests membership of the position in comic `j`'s contiguous `[start, end)`
corpus range, which holds exactly when the slot's owning comic index is
`j`; the dead local `current_comic_similar_indices` is omitted.) -/
def buildEvidence (T : Nat) (entries : List Entry) (sortedComics : List ComicInfo)
    (c : ComicInfo) (surv : List (Nat × HashVal)) (validSim : List Nat) : Finset Ev :=
  validSim.foldl (fun acc j =>
    match sortedComics.get? j with
    | none => acc
    | some cj =>
      surv.enum.foldl (fun acc lio =>
        (similarList T entries lio.2.2).foldl (fun acc pd =>
          if hashToComicIdx entries pd.1 = j then
            insert (normPair (c.imageHashes.getD lio.2.1 0)
                     (cj.imageHashes.getD (hashToImageIdx entries pd.1) 0) pd.2) acc
          else acc) acc) acc) ∅

/-- Python `set.add` on an insertion-ordered duplicate-free list of comics. -/
def comicSetAdd (s : List ComicInfo) (x : ComicInfo) : List ComicInfo :=
  if s.contains x then s else s ++ [x]

/-- Python `set.update` / set construction from an iterable. -/
def comicSetUnion (s : List ComicInfo) (t : List ComicInfo) : List ComicInfo :=
  t.foldl comicSetAdd s

/-- One insertion step of `sorted(..., key=lambda c: len(c.image_hashes),
reverse=True)`; only the descending-image-count shape and the membership of
the result matter downstream (the input order is a Python set's arbitrary
iteration order). -/
def insertDesc (x : ComicInfo) : List ComicInfo → List ComicInfo
  | [] => [x]
  | y :: t => if y.imageHashes.length < x.imageHashes.length then x :: y :: t
              else y :: insertDesc x t

/-- `sorted(all_merged_comics, key=lambda c: len(c.image_hashes),
reverse=True)` (scanner.py lines 807-809). -/
def sortComicsDesc (l : List ComicInfo) : List ComicInfo := l.foldr insertDesc []

/-- The merge loop over the members of the newly formed group
(scanner.py lines 792-804): for each member that already belongs to a group
(per the comic→group map), union in that group's comics and evidence and
remove it from the result list (removal compares the stable `gid`, the
model of Python object identity; the map is not modified inside this
loop). -/
def mergeFold (map : List (String × DuplicateGroup)) (similarComics : List ComicInfo)
    (acc0 : List ComicInfo) (ev0 : Finset Ev) (groups0 : List DuplicateGroup) :
    List ComicInfo × Finset Ev × List DuplicateGroup :=
  similarComics.foldl (fun acc x =>
    match alookup x.cacheKey map with
    | none => acc
    | some g =>
      (comicSetUnion acc.1 g.comics, acc.2.1 ∪ g.similarHashGroups,
       acc.2.2.filter (fun q => q.gid ≠ g.gid)))
    (acc0, ev0, groups0)

/-- The mutable state threaded through the detection loop of
`_detect_duplicates` (lines 652-824).  `sources` instruments the loop with
the cache keys of the comics that were processed as a source (i.e. passed
the skip check, where the source updates its progress counter); it is
written and never read by the loop. -/
structure DetectState where
  duplicateGroups : List DuplicateGroup
  comicToGroupMap : List (String × DuplicateGroup)
  simCacheDict : List (String × List Nat)
  recallKeys : List String
  nextGid : Nat
  sources : List String

/-- The body of `for comic_idx, comic in enumerate(valid_comics)`
(scanner.py lines 662-824) for one comic, as a state transformer. -/
def detectStep (T minSim : Nat) (blacklist : List HashVal) (entries : List Entry)
    (sortedComics : List ComicInfo) (skipped : List String)
    (st : DetectState) (cic : Nat × ComicInfo) : DetectState :=
  let ci := cic.1
  let c := cic.2
  if skipped.contains c.cacheKey && !(st.recallKeys.contains c.cacheKey) then st
  else
    let st1 := { st with sources := st.sources ++ [c.cacheKey] }
    let surv := comicSurvivors blacklist T c
    if surv.isEmpty then st1
    else
      let localHashes := surv.map (·.2)
      let d := similarComicIndexDict T entries ci localHashes
      let st2 := { st1 with
        simCacheDict := aset c.cacheKey (countsOfDict d) st1.simCacheDict }
      let validSim := validSimilarComics minSim d
      if validSim.isEmpty then st2
      else
        let similarComics := c :: validSim.filterMap (fun j => sortedComics.get? j)
        let evidence := buildEvidence T entries sortedComics c surv validSim
        let recall2 := st2.recallKeys ++
          ((similarComics.filter (fun x => skipped.contains x.cacheKey)).map (·.cacheKey))
        let merged := mergeFold st2.comicToGroupMap similarComics
          (comicSetUnion [] similarComics) evidence st2.duplicateGroups
        let newGroup : DuplicateGroup :=
          ⟨st2.nextGid, sortComicsDesc merged.1, merged.2.1⟩
        let map2 := newGroup.comics.foldl
          (fun m x => aset x.cacheKey newGroup m) st2.comicToGroupMap
        { duplicateGroups := merged.2.2 ++ [newGroup]
          comicToGroupMap := map2
          simCacheDict := st2.simCacheDict
          recallKeys := recall2
          nextGid := st2.nextGid + 1
          sources := st2.sources }

/-- The detection loop (scanner.py line 662). -/
def detectLoop (T minSim : Nat) (blacklist : List HashVal) (entries : List Entry)
    (sortedComics : List ComicInfo) (skipped : List String)
    (st0 : DetectState) : DetectState :=
  sortedComics.enum.foldl (detectStep T minSim blacklist entries sortedComics skipped) st0

/-- The replayed cached groups materialized as `DuplicateGroup`s with fresh
arena ids `0, 1, ...` (scanner.py lines 558-571). -/
def initGroupsOf (replayed : List (List ComicInfo × List Ev)) : List DuplicateGroup :=
  replayed.enum.map (fun p => ⟨p.1, p.2.1, p.2.2.toFinset⟩)

/-- The initial comic→group map (scanner.py lines 652-658). -/
def initMapOf (groups : List DuplicateGroup) : List (String × DuplicateGroup) :=
  groups.foldl (fun m g => g.comics.foldl (fun m c => aset c.cacheKey g m) m) []

/-- `_detect_duplicates`, from the valid-comic filter to the final result,
returning the whole final loop state (the source returns
`duplicate_groups`; persistence of `index.db` is a side effect outside the
model). -/
def detectFullState (cfg : DetectConfig) (blacklist : List HashVal)
    (cache : Option IndexCache) (comicInfos : List ComicInfo) : DetectState :=
  let valid := validComicsOf cfg comicInfos
  if valid.length < 2 then ⟨[], [], [], [], 0, []⟩
  else
    let loaded := invalidatedCache cfg.similarityThreshold cfg.minSimilarImages cache
    let dict0 := loaded.1
    let replayed := replayedGroups cfg.similarityThreshold cfg.minSimilarImages
      blacklist (validComicMapOf valid) loaded.2
    let initGroups := initGroupsOf replayed
    let skipped := skippedKeysOf cfg.minSimilarImages replayed dict0
    let sorted := sortedComicsOf valid skipped
    let entries := buildEntries blacklist cfg.similarityThreshold sorted
    let st0 : DetectState :=
      ⟨initGroups, initMapOf initGroups, dict0, [], initGroups.length, []⟩
    if entries.isEmpty then st0
    else detectLoop cfg.similarityThreshold cfg.minSimilarImages blacklist
      entries sorted skipped st0

/-- The duplicate-group list returned by `_detect_duplicates`. -/
def detectDuplicates (cfg : DetectConfig) (blacklist : List HashVal)
    (cache : Option IndexCache) (comicInfos : List ComicInfo) : List DuplicateGroup :=
  (detectFullState cfg blacklist cache comicInfos).duplicateGroups

/-- The attribute names defined on `class CacheManager`
(cache_manager.py): its methods and the instance attributes set in
`__init__`.  There is no `get_cache`. -/
def cacheManagerAttrs : List String :=
  ["__init__", "_ensure_cache_dir", "get_cache_key", "_get_cache_file_path",
   "get_comic_cache", "set_comic_cache", "_validate_cache_data", "clear_cache",
   "remove_cache", "get_cache_statistics", "cleanup_old_cache",
   "cache_dir", "_memory_cache"]

/-- The extraction result for one comic as seen by
`_process_single_comic`: the images that pass validation and the minimum
resolution check, paired with their computed fingerprints. -/
structure ComicSource where
  path : String
  mtime : Nat
  size : Nat
  images : List (String × HashVal)
deriving Repr

/-- `CacheManager.get_cache_key` (cache_manager.py lines 31-46) computes
`md5(f"...")` of this string; the model uses the string itself (md5 is
injective for the purpose of the cache contract). -/
def cacheKeyOf (path : String) (mtime : Nat) (algorithm : String) : String :=
  path ++ ":" ++ toString mtime ++ ":" ++ algorithm

/-- `Scanner._process_single_comic` (scanner.py lines 283-388).  The whole
body runs inside `try:`; any exception is caught at line 386 and the
function returns `None`.  With caching enabled the body evaluates
`self.cache_manager.get_cache(file_path, mtime, algorithm)` (line 304):
a Python attribute lookup on `CacheManager`, which raises
`AttributeError` because the class defines `get_comic_cache` but not
`get_cache`.  The first branch below models what the lookup would return
if the attribute existed (the per-comic cache consulted, falling back to
fresh extraction); the `else` branch is the `AttributeError` propagating
to the handler. -/
def processSingleComic (cacheEnabled : Bool) (algorithm : String)
    (comicCache : List (String × List (String × HashVal))) (src : ComicSource) :
    Option ComicInfo :=
  let key := cacheKeyOf src.path src.mtime algorithm
  let fresh : ComicInfo :=
    ⟨src.path, src.size, src.mtime, src.images.map (·.2), key, none⟩
  if cacheEnabled then
    if cacheManagerAttrs.contains "get_cache" then
      match alookup key comicCache with
      | some cached => some ⟨src.path, src.size, src.mtime, cached.map (·.2), key, none⟩
      | none => some fresh
    else none
  else some fresh

/-- Is `c` one of the characters `int(s, 16)` accepts as a hex digit?
(Leading signs, whitespace and underscores are not modelled.) -/
def isHexDigitCh (c : Char) : Bool :=
  (decide ('0' ≤ c) && decide (c ≤ '9')) ||
  (decide ('a' ≤ c) && decide (c ≤ 'f')) ||
  (decide ('A' ≤ c) && decide (c ≤ 'F'))

/-- Value of a hex digit. -/
def hexDigitVal (c : Char) : Nat :=
  if decide ('0' ≤ c) && decide (c ≤ '9') then c.toNat - 48
  else if decide ('a' ≤ c) && decide (c ≤ 'f') then c.toNat - 87
  else c.toNat - 55

/-- `int(s, 16)` on a string of hex digits. -/
def hexValue (s : String) : Nat :=
  s.toList.foldl (fun v c => v * 16 + hexDigitVal c) 0

/-- The result of `imagehash.hex_to_hash`: a bit matrix, of which only the
total bit count (`hash.size`, compared by `ImageHash.__sub__`) and the bit
values matter. -/
structure PyImageHash where
  bitCount : Nat
  val : Nat
deriving DecidableEq, Repr

/-- Is `n` a perfect square?  (`hash_size == numpy.sqrt(len(hexstr) * 4)`
in `hex_to_hash`); written by search so the kernel can evaluate it. -/
def isPerfectSquareBool (n : Nat) : Bool :=
  (List.range (n + 1)).any (fun k => k * k == n)

/-- `imagehash.hex_to_hash(s)` as consumed by
`ImageHasher.calculate_similarity`: raises (`none`) when `int(s, 16)`
fails (empty string or a non-hex character) or when `4 * len(s)` is not a
perfect square (the asserted shape); otherwise a bit vector of
`4 * len(s)` bits.  As `int(s, 16) < 16^len(s)`, the value always fits. -/
def hex_to_hash (s : String) : Option PyImageHash :=
  if !s.isEmpty && s.toList.all isHexDigitCh && isPerfectSquareBool (4 * s.length)
  then some ⟨4 * s.length, hexValue s⟩ else none

/-- `ImageHash.__sub__`: raises (`none`) when the two hashes have
different shapes, otherwise the number of differing bits. -/
def imageHashSub (a b : PyImageHash) : Option Nat :=
  if a.bitCount = b.bitCount then some (hammingDistNat a.val b.val) else none

/-- The return value of `ImageHasher.calculate_similarity`: an `int`
Hamming distance, or `float("inf")` from the exception handler. -/
inductive SimilarityResult where
  | dist (d : Nat)
  | infinite
deriving DecidableEq, Repr

/-- `ImageHasher.calculate_similarity` (image_hash.py lines 74-94): convert
both hex strings, subtract; on any exception return `float("inf")`. -/
def calculate_similarity (h1 h2 : String) : SimilarityResult :=
  match hex_to_hash h1, hex_to_hash h2 with
  | some a, some b =>
    match imageHashSub a b with
    | some d => .dist d
    | none => .infinite
  | _, _ => .infinite

/-- `distance <= threshold` where `distance` may be `float("inf")`. -/
def simLeThreshold : SimilarityResult → Nat → Bool
  | .dist d, t => decide (d ≤ t)
  | .infinite, _ => false

/-- `ImageHasher.is_similar` (image_hash.py lines 96-108). -/
def is_similar (h1 h2 : String) (threshold : Nat := 5) : Bool :=
  simLeThreshold (calculate_similarity h1 h2) threshold

/-- The condition under which the body of `calculate_similarity` raises:
a conversion failure on either argument, or a shape mismatch in the
subtraction. -/
def conversionOrDiffFails (h1 h2 : String) : Prop :=
  match hex_to_hash h1, hex_to_hash h2 with
  | some a, some b => a.bitCount ≠ b.bitCount
  | _, _ => True

/-! ### Concrete inputs used by counterexamples and witnesses -/

/-- A one-page comic with fingerprint 5. -/
def comicA5 : ComicInfo := ⟨"dir/a.zip", 10, 0, [5], "ka", none⟩

/-- A second one-page comic with the same fingerprint 5. -/
def comicB5 : ComicInfo := ⟨"dir/b.zip", 11, 0, [5], "kb", none⟩

/-- A third one-page comic with fingerprint 9 (distance 2 from 5). -/
def comicC9 : ComicInfo := ⟨"dir/c.zip", 12, 0, [9], "kc", none⟩

/-- A one-page comic with fingerprint 1, under cache key `ka2`. -/
def comicKa2 : ComicInfo := ⟨"dir/a.zip", 10, 0, [1], "ka2", none⟩

/-- A one-page comic with fingerprint 2, under cache key `kb2`. -/
def comicKb2 : ComicInfo := ⟨"dir/b.zip", 11, 0, [2], "kb2", none⟩

/-- A cached duplicate group over `ka2`/`kb2` with one in-threshold
evidence pair. -/
def cachedGroupAB : CachedDuplicateGroup := ⟨["ka2", "kb2"], [(1, 2, 0)]⟩

/-- A loaded index for the C4 witness: thresholds 5 / 3 stored. -/
def indexDataW : IndexCache :=
  ⟨[("k", [1])], [⟨["x", "y"], []⟩], some 5, some 3⟩

/-! ### C10 -/

/-- C10: whenever converting either hex string to a hash object or
computing the difference raises (`conversionOrDiffFails`),
`calculate_similarity` returns positive infinity instead of propagating,
and `is_similar` is false for every finite threshold. -/
theorem claim_C10 (h1 h2 : String) (hfail : conversionOrDiffFails h1 h2) :
    calculate_similarity h1 h2 = SimilarityResult.infinite ∧
      ∀ t : Nat, is_similar h1 h2 t = false := by
  have hcalc : calculate_similarity h1 h2 = SimilarityResult.infinite := by
    unfold conversionOrDiffFails at hfail
    unfold calculate_similarity
    cases hh1 : hex_to_hash h1 <;> cases hh2 : hex_to_hash h2 <;>
      rw [hh1, hh2] at hfail <;> simp_all [imageHashSub]
  refine ⟨hcalc, fun t => ?_⟩
  unfold is_similar
  rw [hcalc]
  rfl

/-- C10 witness: `"gg"` is not valid hex, so the pair (`"gg"`, `"ffff"`)
fails conversion and is never similar. -/
theorem claim_C10_witness :
    conversionOrDiffFails "gg" "ffff" ∧
      calculate_similarity "gg" "ffff" = SimilarityResult.infinite ∧
      is_similar "gg" "ffff" 1000000 = false := by
  have h : conversionOrDiffFails "gg" "ffff" := by
    unfold conversionOrDiffFails
    exact trivial
  exact ⟨h, (claim_C10 "gg" "ffff" h).1, (claim_C10 "gg" "ffff" h).2 1000000⟩

/-! ### C6 -/

/-- C6 (code bug): `CacheManager` defines no attribute `get_cache`, yet
`_process_single_comic` calls `self.cache_manager.get_cache(...)` whenever
caching is enabled; the resulting `AttributeError` is swallowed by the
function-level handler, so the call returns `None` for every comic — in
particular a second call never returns the cached fingerprint list. -/
theorem claim_C6 :
    cacheManagerAttrs.contains "get_cache" = false ∧
      ∀ (algorithm : String) (comicCache : List (String × List (String × HashVal)))
        (src : ComicSource),
        processSingleComic true algorithm comicCache src = none := by
  have h : cacheManagerAttrs.contains "get_cache" = false := by decide
  refine ⟨h, fun alg cache src => ?_⟩
  unfold processSingleComic
  simp only [h]
  simp

/-! ### C4 -/

/-- C4: the invalidation rules applied to a loaded `index.db`.  (a) If the
configured minimum-similar-images value is below the stored one (or the
stored one is absent), the cached duplicate groups are discarded; (b) if
moreover the similarity threshold was not widened, the match-count vectors
are kept; (c) if the similarity threshold is above the stored one (or the
stored one is absent), both the groups and the vectors are discarded. -/
theorem claim_C4 (T msi : Nat) (data : IndexCache) :
    ((data.minSimilarImages = none ∨
        (∃ m, data.minSimilarImages = some m ∧ msi < m)) →
      (invalidatedCache T msi (some data)).2 = []) ∧
    ((data.minSimilarImages = none ∨
        (∃ m, data.minSimilarImages = some m ∧ msi < m)) →
      (∃ t, data.similarityThreshold = some t ∧ T ≤ t) →
      (invalidatedCache T msi (some data)).1 = data.simComicCacheDict ∧
        (invalidatedCache T msi (some data)).2 = []) ∧
    ((data.similarityThreshold = none ∨
        (∃ t, data.similarityThreshold = some t ∧ t < T)) →
      (invalidatedCache T msi (some data)).1 = [] ∧
        (invalidatedCache T msi (some data)).2 = []) := by
  refine ⟨?_, ?_, ?_⟩
  · intro hmin
    have hml : minLoweredCheck msi data.minSimilarImages = true := by
      rcases hmin with hm | ⟨m, hm, hlt⟩
      · rw [hm]; rfl
      · rw [hm]; simp [minLoweredCheck, hlt]
    simp only [invalidatedCache, hml]
    split <;> rfl
  · rintro hmin ⟨t, ht, hle⟩
    have hml : minLoweredCheck msi data.minSimilarImages = true := by
      rcases hmin with hm | ⟨m, hm, hlt⟩
      · rw [hm]; rfl
      · rw [hm]; simp [minLoweredCheck, hlt]
    have htw : thresholdWidenedCheck T data.similarityThreshold = false := by
      rw [ht]; simp [thresholdWidenedCheck, Nat.not_lt.mpr hle]
    simp [invalidatedCache, hml, htw]
  · intro hthr
    have htw : thresholdWidenedCheck T data.similarityThreshold = true := by
      rcases hthr with ht | ⟨t, ht, hlt⟩
      · rw [ht]; rfl
      · rw [ht]; simp [thresholdWidenedCheck, hlt]
    simp [invalidatedCache, htw]

/-- C4 witness: with stored thresholds (5, 3), running at
`(T, msi) = (3, 2)` keeps the vectors and drops the groups, while running
at `(T, msi) = (9, 5)` drops both. -/
theorem claim_C4_witness :
    ((invalidatedCache 3 2 (some indexDataW)).1 = indexDataW.simComicCacheDict ∧
      (invalidatedCache 3 2 (some indexDataW)).2 = []) ∧
    ((invalidatedCache 9 5 (some indexDataW)).1 = [] ∧
      (invalidatedCache 9 5 (some indexDataW)).2 = []) :=
  ⟨(claim_C4 3 2 indexDataW).2.1 (Or.inr ⟨3, rfl, by decide⟩) ⟨5, rfl, by decide⟩,
   (claim_C4 9 5 indexDataW).2.2 (Or.inr ⟨5, rfl, by decide⟩)⟩

/-! ### C5 -/

/-- C5 (code bug): replaying the cached group over `ka2`/`kb2` with an
empty blacklist drops the group even though, per the claim, both members
retain distinct-match count 1 ≥ 1 under the filtered evidence
`[(1, 2, 0)]`; adding an irrelevant blacklist entry (fingerprint 255, at
distance 7 > 5 from both endpoints) makes the same group survive with the
same evidence — the empty-blacklist shortcut skips the
`valid_similar_hashes` bookkeeping, so every recomputed count is 0. -/
theorem claim_C5_code_eval :
    replayCachedGroup 5 1 [] [("ka2", comicKa2), ("kb2", comicKb2)] cachedGroupAB
        = none ∧
      replayCachedGroup 5 1 [255] [("ka2", comicKa2), ("kb2", comicKb2)] cachedGroupAB
        = some ([comicKa2, comicKb2], [(1, 2, 0)]) := by
  constructor <;> rfl

/-! ### C1 counterexample -/

/-- C1 counterexample: with two one-page comics holding the same
fingerprint, the source comic at index 1 (the higher one) records comic 0
as a compared neighbor — `similar_comic_index_dict` of comic 1 holds key 0
(whereas the claim allows only keys in `2..N-1`), and the full run stores
the non-empty match-count vector `[1]` for comic `kb`. -/
theorem claim_C1_counterexample :
    (alookup 0 (similarComicIndexDict 0
        (buildEntries [] 0 [comicA5, comicB5]) 1 [5])).isSome = true ∧
      alookup "kb" (detectFullState ⟨0, 1, 1, none⟩ [] none
        [comicA5, comicB5]).simCacheDict = some [1] := by
  constructor <;> rfl

/-! ### Association-list and dict lemmas -/

theorem alookup_append {α β : Type} [DecidableEq α] (k : α) (l1 l2 : List (α × β)) :
    alookup k (l1 ++ l2) =
      match alookup k l1 with
      | some v => some v
      | none => alookup k l2 := by
  induction l1 with
  | nil => rfl
  | cons hd tl ih =>
    rcases hd with ⟨k', v'⟩
    by_cases hk : k' = k <;> simp [alookup, hk, ih]

theorem any_key_eq_isSome (d : List (Nat × Finset Nat × Finset Nat)) (j : Nat) :
    (d.any (fun e => decide (e.1 = j))) = (alookup j d).isSome := by
  induction d with
  | nil => rfl
  | cons hd tl ih =>
    rcases hd with ⟨k, v⟩
    by_cases hk : k = j <;> simp [alookup, hk, ih]

theorem alookup_map_update (d : List (Nat × Finset Nat × Finset Nat)) (j li p : Nat) :
    alookup j (d.map (fun e => if e.1 = j then (j, insert li e.2.1, insert p e.2.2) else e)) =
      (alookup j d).map (fun ab => (insert li ab.1, insert p ab.2)) := by
  induction d with
  | nil => rfl
  | cons hd tl ih =>
    rcases hd with ⟨k, v⟩
    simp only [List.map_cons]
    by_cases hk : k = j
    · subst hk
      rw [if_pos rfl]
      simp [alookup, ih]
    · rw [if_neg hk]
      simp [alookup, hk, ih]

theorem alookup_map_update_ne (d : List (Nat × Finset Nat × Finset Nat))
    (j j' li p : Nat) (hne : j' ≠ j) :
    alookup j' (d.map (fun e => if e.1 = j then (j, insert li e.2.1, insert p e.2.2) else e)) =
      alookup j' d := by
  induction d with
  | nil => rfl
  | cons hd tl ih =>
    rcases hd with ⟨k, v⟩
    simp only [List.map_cons]
    by_cases hk : k = j
    · subst hk
      rw [if_pos rfl]
      simp [alookup, Ne.symm hne, ih]
    · rw [if_neg hk]
      by_cases hk' : k = j' <;> simp [alookup, hk', ih]

theorem alookup_dictAdd_some (d : List (Nat × Finset Nat × Finset Nat))
    (j li p : Nat) (ab : Finset Nat × Finset Nat) (h : alookup j d = some ab) :
    alookup j (dictAdd d j li p) = some (insert li ab.1, insert p ab.2) := by
  unfold dictAdd
  rw [any_key_eq_isSome, h]
  simp [alookup_map_update, h]

theorem alookup_dictAdd_none (d : List (Nat × Finset Nat × Finset Nat))
    (j li p : Nat) (h : alookup j d = none) :
    alookup j (dictAdd d j li p) = some ({li}, {p}) := by
  unfold dictAdd
  rw [any_key_eq_isSome, h]
  simp [alookup_append, h, alookup]

theorem alookup_dictAdd_ne (d : List (Nat × Finset Nat × Finset Nat))
    (j j' li p : Nat) (hne : j' ≠ j) :
    alookup j' (dictAdd d j li p) = alookup j' d := by
  unfold dictAdd
  split
  · exact alookup_map_update_ne d j j' li p hne
  · rw [alookup_append]
    have : alookup j' [(j, ({li} : Finset Nat), ({p} : Finset Nat))] = none := by
      simp [alookup, Ne.symm hne]
    cases hl : alookup j' d <;> simp [hl, this]

/-- One step of the dict-building fold, uncurried. -/
def dictFoldStep (d : List (Nat × Finset Nat × Finset Nat)) (t : Nat × Nat × Nat) :
    List (Nat × Finset Nat × Finset Nat) :=
  dictAdd d t.1 t.2.1 t.2.2

/-- Insert a stream of (li, p) pairs into a pair of index sets. -/
def pairInsertAll (ab : Finset Nat × Finset Nat) (s : List (Nat × Nat × Nat)) :
    Finset Nat × Finset Nat :=
  s.foldl (fun ab t => (insert t.2.1 ab.1, insert t.2.2 ab.2)) ab

theorem pairInsertAll_fst (s : List (Nat × Nat × Nat)) (ab : Finset Nat × Finset Nat) :
    (pairInsertAll ab s).1 = ab.1 ∪ (s.map (fun t => t.2.1)).toFinset := by
  induction s generalizing ab with
  | nil => simp [pairInsertAll]
  | cons t rest ih =>
    show (pairInsertAll (insert t.2.1 ab.1, insert t.2.2 ab.2) rest).1 = _
    rw [ih]
    simp [List.toFinset_cons, Finset.insert_union, Finset.union_insert]

theorem pairInsertAll_snd (s : List (Nat × Nat × Nat)) (ab : Finset Nat × Finset Nat) :
    (pairInsertAll ab s).2 = ab.2 ∪ (s.map (fun t => t.2.2)).toFinset := by
  induction s generalizing ab with
  | nil => simp [pairInsertAll]
  | cons t rest ih =>
    show (pairInsertAll (insert t.2.1 ab.1, insert t.2.2 ab.2) rest).2 = _
    rw [ih]
    simp [List.toFinset_cons, Finset.insert_union, Finset.union_insert]

theorem alookup_foldl_dictAdd_some (s : List (Nat × Nat × Nat))
    (d : List (Nat × Finset Nat × Finset Nat)) (j : Nat)
    (ab : Finset Nat × Finset Nat) (h : alookup j d = some ab) :
    alookup j (s.foldl dictFoldStep d) =
      some (pairInsertAll ab (s.filter (fun t => decide (t.1 = j)))) := by
  induction s generalizing d ab with
  | nil => simpa [pairInsertAll] using h
  | cons t rest ih =>
    by_cases ht : t.1 = j
    · have hstep : alookup j (dictFoldStep d t) = some (insert t.2.1 ab.1, insert t.2.2 ab.2) := by
        unfold dictFoldStep
        rw [ht]
        exact alookup_dictAdd_some d j t.2.1 t.2.2 ab h
      rw [List.foldl_cons, ih _ _ hstep]
      simp [List.filter_cons, ht, pairInsertAll]
    · have hstep : alookup j (dictFoldStep d t) = some ab := by
        unfold dictFoldStep
        rw [alookup_dictAdd_ne _ _ _ _ _ (fun hh => ht hh.symm), h]
      rw [List.foldl_cons, ih _ _ hstep]
      simp [List.filter_cons, ht]

theorem alookup_foldl_dictAdd_none (s : List (Nat × Nat × Nat))
    (d : List (Nat × Finset Nat × Finset Nat)) (j : Nat) (h : alookup j d = none) :
    (alookup j (s.foldl dictFoldStep d) = none ∧
        s.filter (fun t => decide (t.1 = j)) = []) ∨
      (s.filter (fun t => decide (t.1 = j)) ≠ [] ∧
        alookup j (s.foldl dictFoldStep d) =
          some (pairInsertAll (∅, ∅) (s.filter (fun t => decide (t.1 = j))))) := by
  induction s generalizing d with
  | nil => exact Or.inl ⟨h, rfl⟩
  | cons t rest ih =>
    by_cases ht : t.1 = j
    · have hstep : alookup j (dictFoldStep d t) = some ({t.2.1}, {t.2.2}) := by
        unfold dictFoldStep
        rw [ht]
        exact alookup_dictAdd_none d j t.2.1 t.2.2 h
      have hfc : List.filter (fun x => decide (x.1 = j)) (t :: rest) =
          t :: List.filter (fun x => decide (x.1 = j)) rest := by
        simp [List.filter_cons, ht]
      refine Or.inr ?_
      rw [hfc]
      refine ⟨List.cons_ne_nil _ _, ?_⟩
      rw [List.foldl_cons, alookup_foldl_dictAdd_some rest _ j _ hstep]
      rfl
    · have hstep : alookup j (dictFoldStep d t) = none := by
        unfold dictFoldStep
        rw [alookup_dictAdd_ne _ _ _ _ _ (fun hh => ht hh.symm), h]
      have hfc : List.filter (fun x => decide (x.1 = j)) (t :: rest) =
          List.filter (fun x => decide (x.1 = j)) rest := by
        simp [List.filter_cons, ht]
      rw [List.foldl_cons, hfc]
      exact ih _ hstep

theorem foldl_flatMap {α β γ : Type} (l : List α) (f : α → List β) (g : γ → β → γ)
    (init : γ) :
    (l.flatMap f).foldl g init = l.foldl (fun acc x => (f x).foldl g acc) init := by
  induction l generalizing init with
  | nil => rfl
  | cons a t ih => simp [List.flatMap_cons, List.foldl_append, ih]

theorem foldl_filterMap {α β γ : Type} (l : List α) (f : α → Option β) (g : γ → β → γ)
    (init : γ) :
    (l.filterMap f).foldl g init =
      l.foldl (fun acc x => match f x with | some y => g acc y | none => acc) init := by
  induction l generalizing init with
  | nil => rfl
  | cons a t ih => cases hf : f a <;> simp [List.filterMap_cons, hf, ih]

/-- The stream of (neighbor comic, local image index, corpus position)
triples fed to `similar_comic_index_dict`, in iteration order. -/
def matchStream (T : Nat) (entries : List Entry) (i : Nat) (lhs : List HashVal) :
    List (Nat × Nat × Nat) :=
  lhs.enum.flatMap (fun lh =>
    (similarList T entries lh.2).filterMap (fun pd =>
      if hashToComicIdx entries pd.1 ≠ i then
        some (hashToComicIdx entries pd.1, lh.1, pd.1)
      else none))

theorem similarComicIndexDict_eq_stream (T : Nat) (entries : List Entry) (i : Nat)
    (lhs : List HashVal) :
    similarComicIndexDict T entries i lhs =
      (matchStream T entries i lhs).foldl dictFoldStep [] := by
  unfold similarComicIndexDict matchStream
  rw [foldl_flatMap]
  congr 1
  funext d lh
  rw [foldl_filterMap]
  congr 1
  funext d' pd
  split <;> rfl

theorem mem_similarList (T : Nat) (entries : List Entry) (h : HashVal) (p dv : Nat) :
    (p, dv) ∈ similarList T entries h ↔
      ∃ e, entries.get? p = some e ∧ hammingDistNat h e.hash ≤ T ∧
        dv = hammingDistNat h e.hash := by
  unfold similarList
  rw [List.mem_filterMap]
  constructor
  · rintro ⟨pe, hpe, heq⟩
    by_cases hc : hammingDistNat h pe.2.hash ≤ T
    · rw [if_pos hc] at heq
      have h2 := Option.some.inj heq
      have hp : pe.1 = p := congrArg Prod.fst h2
      have hd : hammingDistNat h pe.2.hash = dv := congrArg Prod.snd h2
      refine ⟨pe.2, ?_, ?_, ?_⟩
      · rw [← hp]
        exact List.mem_enum_iff_get?.mp hpe
      · exact hc
      · exact hd.symm
    · rw [if_neg hc] at heq
      exact absurd heq (by simp)
  · rintro ⟨e, hget, hc, rfl⟩
    exact ⟨(p, e), List.mem_enum_iff_get?.mpr hget, if_pos hc⟩

theorem mem_matchStream (T : Nat) (entries : List Entry) (i : Nat) (lhs : List HashVal)
    (j li p : Nat) :
    (j, li, p) ∈ matchStream T entries i lhs ↔
      (j ≠ i ∧ hashToComicIdx entries p = j ∧
        ∃ h, lhs.get? li = some h ∧ ∃ dv, (p, dv) ∈ similarList T entries h) := by
  unfold matchStream
  rw [List.mem_flatMap]
  constructor
  · rintro ⟨lh, hlh, hmem⟩
    rw [List.mem_filterMap] at hmem
    obtain ⟨pd, hpd, heq⟩ := hmem
    by_cases hc : hashToComicIdx entries pd.1 ≠ i
    · rw [if_pos hc] at heq
      have h2 := Option.some.inj heq
      have hj : hashToComicIdx entries pd.1 = j := congrArg Prod.fst h2
      have hli : lh.1 = li := congrArg (fun q => q.2.1) h2
      have hp : pd.1 = p := congrArg (fun q => q.2.2) h2
      refine ⟨hj ▸ hc, by rw [← hp, hj], lh.2, ?_, pd.2, ?_⟩
      · rw [← hli]
        exact List.mem_enum_iff_get?.mp hlh
      · rw [← hp]
        exact hpd
    · rw [if_neg hc] at heq
      exact absurd heq (by simp)
  · rintro ⟨hne, howner, h, hget, dv, hmem⟩
    refine ⟨(li, h), List.mem_enum_iff_get?.mpr hget, ?_⟩
    rw [List.mem_filterMap]
    refine ⟨(p, dv), hmem, ?_⟩
    have hc : hashToComicIdx entries p ≠ i := by rw [howner]; exact hne
    rw [if_pos hc, howner]

/-- The number of distinct images of the source comic (given by its
surviving fingerprints `lhs`) that have at least one counterpart within
threshold among the corpus fingerprints owned by comic `j` — the
specification-level reading of `len(indices1)`. -/
def matchCountSource (T : Nat) (entries : List Entry) (j : Nat) (lhs : List HashVal) :
    Nat :=
  (lhs.filter (fun h =>
    (similarList T entries h).any (fun pd =>
      decide (hashToComicIdx entries pd.1 = j)))).length

/-- The number of distinct corpus fingerprints owned by comic `j` that have
at least one counterpart within threshold among the source comic's
surviving fingerprints `lhs` — the specification-level reading of
`len(indices2)`. -/
def matchCountNeighbor (T : Nat) (entries : List Entry) (j : Nat) (lhs : List HashVal) :
    Nat :=
  ((entries.enum).filter (fun pe =>
    decide (pe.2.comicIdx = j) &&
      lhs.any (fun h => decide (hammingDistNat h pe.2.hash ≤ T)))).length

theorem nodup_enum_filter_fst {α : Type} (l : List α) (f : Nat × α → Bool) :
    (((l.enum).filter f).map Prod.fst).Nodup := by
  have hs : (((l.enum).filter f).map Prod.fst).Sublist ((l.enum).map Prod.fst) :=
    List.Sublist.map _ (List.filter_sublist _)
  have hn : ((l.enum).map Prod.fst).Nodup := by
    rw [List.enum_map_fst]
    exact List.nodup_range _
  exact List.Nodup.sublist hs hn

theorem length_filter_enumFrom {α : Type} (l : List α) (f : α → Bool) (n : Nat) :
    ((List.enumFrom n l).filter (fun x => f x.2)).length = (l.filter f).length := by
  induction l generalizing n with
  | nil => rfl
  | cons a t ih => cases hf : f a <;> simp [List.filter_cons, hf, ih]

theorem length_filter_enum {α : Type} (l : List α) (f : α → Bool) :
    ((l.enum).filter (fun x => f x.2)).length = (l.filter f).length :=
  length_filter_enumFrom l f 0

theorem dict_lookup_some_cards (T : Nat) (entries : List Entry) (i j : Nat)
    (lhs : List HashVal) (ab : Finset Nat × Finset Nat) (hij : j ≠ i)
    (h : alookup j (similarComicIndexDict T entries i lhs) = some ab) :
    ab.1.card = matchCountSource T entries j lhs ∧
      ab.2.card = matchCountNeighbor T entries j lhs := by
  rw [similarComicIndexDict_eq_stream] at h
  rcases alookup_foldl_dictAdd_none (matchStream T entries i lhs) [] j rfl with
    ⟨hnone, _⟩ | ⟨hfne, hsome⟩
  · rw [h] at hnone
    exact absurd hnone (by simp)
  · rw [h] at hsome
    have hab : ab = pairInsertAll (∅, ∅)
        ((matchStream T entries i lhs).filter (fun t => decide (t.1 = j))) :=
      Option.some.inj hsome
    constructor
    · have hA : ab.1 = (((matchStream T entries i lhs).filter
          (fun t => decide (t.1 = j))).map (fun t => t.2.1)).toFinset := by
        rw [hab, pairInsertAll_fst]
        exact Finset.empty_union _
      have hAeq : (((matchStream T entries i lhs).filter
            (fun t => decide (t.1 = j))).map (fun t => t.2.1)).toFinset =
          (((lhs.enum).filter (fun lh =>
            (similarList T entries lh.2).any (fun pd =>
              decide (hashToComicIdx entries pd.1 = j)))).map Prod.fst).toFinset := by
        ext li
        simp only [List.mem_toFinset, List.mem_map, List.mem_filter]
        constructor
        · rintro ⟨t, ⟨htmem, htkey⟩, rfl⟩
          obtain ⟨j', li', p'⟩ := t
          have hj' : j' = j := by simpa using htkey
          subst hj'
          obtain ⟨hne, howner, hh, hget, dv, hmem⟩ :=
            (mem_matchStream T entries i lhs j' li' p').mp htmem
          refine ⟨(li', hh), ⟨List.mem_enum_iff_get?.mpr hget, ?_⟩, rfl⟩
          rw [List.any_eq_true]
          exact ⟨(p', dv), hmem, by simp [howner]⟩
        · rintro ⟨lh, ⟨hlhmem, hcond⟩, rfl⟩
          rw [List.any_eq_true] at hcond
          obtain ⟨pd, hpd, howner⟩ := hcond
          have howner' : hashToComicIdx entries pd.1 = j := by simpa using howner
          refine ⟨(j, lh.1, pd.1), ⟨?_, by simp⟩, rfl⟩
          rw [mem_matchStream]
          exact ⟨hij, howner', lh.2, List.mem_enum_iff_get?.mp hlhmem, pd.2, by
            simpa using hpd⟩
      rw [hA, hAeq, List.toFinset_card_of_nodup (nodup_enum_filter_fst _ _)]
      rw [List.length_map]
      unfold matchCountSource
      exact length_filter_enum lhs (fun h =>
        (similarList T entries h).any (fun pd =>
          decide (hashToComicIdx entries pd.1 = j)))
    · have hB : ab.2 = (((matchStream T entries i lhs).filter
          (fun t => decide (t.1 = j))).map (fun t => t.2.2)).toFinset := by
        rw [hab, pairInsertAll_snd]
        exact Finset.empty_union _
      have hBeq : (((matchStream T entries i lhs).filter
            (fun t => decide (t.1 = j))).map (fun t => t.2.2)).toFinset =
          (((entries.enum).filter (fun pe =>
            decide (pe.2.comicIdx = j) &&
              lhs.any (fun h => decide (hammingDistNat h pe.2.hash ≤ T)))).map
                Prod.fst).toFinset := by
        ext p
        simp only [List.mem_toFinset, List.mem_map, List.mem_filter]
        constructor
        · rintro ⟨t, ⟨htmem, htkey⟩, rfl⟩
          obtain ⟨j', li', p'⟩ := t
          have hj' : j' = j := by simpa using htkey
          subst hj'
          obtain ⟨hne, howner, hh, hget, dv, hmem⟩ :=
            (mem_matchStream T entries i lhs j' li' p').mp htmem
          obtain ⟨e, hgetp, hdist, rfl⟩ := (mem_similarList T entries hh p' dv).mp hmem
          have hec : e.comicIdx = j' := by
            have : hashToComicIdx entries p' = e.comicIdx := by
              unfold hashToComicIdx
              rw [hgetp]
              rfl
            rw [← this, howner]
          refine ⟨(p', e), ⟨List.mem_enum_iff_get?.mpr hgetp, ?_⟩, rfl⟩
          simp only [Bool.and_eq_true, decide_eq_true_eq]
          refine ⟨hec, ?_⟩
          rw [List.any_eq_true]
          refine ⟨hh, ?_, by simpa using hdist⟩
          exact List.mem_iff_get?.mpr ⟨li', hget⟩
        · rintro ⟨pe, ⟨hpemem, hcond⟩, rfl⟩
          simp only [Bool.and_eq_true, decide_eq_true_eq] at hcond
          obtain ⟨hec, hany⟩ := hcond
          rw [List.any_eq_true] at hany
          obtain ⟨hh, hhmem, hdist⟩ := hany
          obtain ⟨li', hget⟩ := List.mem_iff_get?.mp hhmem
          have hgetp : entries.get? pe.1 = some pe.2 := List.mem_enum_iff_get?.mp hpemem
          have howner : hashToComicIdx entries pe.1 = j := by
            unfold hashToComicIdx
            rw [hgetp]
            simpa using hec
          refine ⟨(j, li', pe.1), ⟨?_, by simp⟩, rfl⟩
          rw [mem_matchStream]
          refine ⟨hij, howner, hh, hget, hammingDistNat hh pe.2.hash, ?_⟩
          rw [mem_similarList]
          exact ⟨pe.2, hgetp, by simpa using hdist, rfl⟩
      rw [hB, hBeq, List.toFinset_card_of_nodup (nodup_enum_filter_fst _ _)]
      rw [List.length_map]
      rfl

theorem alookup_eq_none_iff {α β : Type} [DecidableEq α] (d : List (α × β)) (k : α) :
    alookup k d = none ↔ k ∉ d.map Prod.fst := by
  induction d with
  | nil => simp [alookup]
  | cons hd tl ih =>
    rcases hd with ⟨k', v'⟩
    by_cases hk : k' = k
    · subst hk
      simp [alookup]
    · rw [List.map_cons, alookup, if_neg hk, ih]
      constructor
      · intro hnot hmem
        rcases List.mem_cons.mp hmem with heq | hmem2
        · exact hk heq.symm
        · exact hnot hmem2
      · intro hnot hmem
        exact hnot (List.mem_cons_of_mem _ hmem)

theorem dictAdd_keys_nodup (d : List (Nat × Finset Nat × Finset Nat)) (j li p : Nat)
    (hd : (d.map Prod.fst).Nodup) : ((dictAdd d j li p).map Prod.fst).Nodup := by
  unfold dictAdd
  split
  · have hkeys : (d.map (fun e =>
        if e.1 = j then (j, insert li e.2.1, insert p e.2.2) else e)).map Prod.fst =
          d.map Prod.fst := by
      rw [List.map_map]
      apply List.map_congr_left
      intro e _
      by_cases hk : e.1 = j <;> simp [Function.comp, hk]
    rw [hkeys]
    exact hd
  · rename_i hany
    have hnone : alookup j d = none := by
      rw [Bool.not_eq_true, any_key_eq_isSome] at hany
      exact Option.not_isSome_iff_eq_none.mp (by simp [hany])
    have hj : j ∉ d.map Prod.fst := (alookup_eq_none_iff d j).mp hnone
    rw [List.map_append]
    simp [List.nodup_append, hd, hj]

theorem foldl_dictFoldStep_keys_nodup (s : List (Nat × Nat × Nat))
    (d : List (Nat × Finset Nat × Finset Nat)) (hd : (d.map Prod.fst).Nodup) :
    ((s.foldl dictFoldStep d).map Prod.fst).Nodup := by
  induction s generalizing d with
  | nil => exact hd
  | cons t rest ih => exact ih _ (dictAdd_keys_nodup d t.1 t.2.1 t.2.2 hd)

theorem similarComicIndexDict_keys_nodup (T : Nat) (entries : List Entry) (i : Nat)
    (lhs : List HashVal) :
    ((similarComicIndexDict T entries i lhs).map Prod.fst).Nodup := by
  rw [similarComicIndexDict_eq_stream]
  exact foldl_dictFoldStep_keys_nodup _ [] (by simp)

theorem alookup_eq_of_mem {α β : Type} [DecidableEq α] (d : List (α × β))
    (hd : (d.map Prod.fst).Nodup) (e : α × β) (he : e ∈ d) :
    alookup e.1 d = some e.2 := by
  induction d with
  | nil => exact absurd he (List.not_mem_nil e)
  | cons hd' tl ih =>
    rcases hd' with ⟨k, v⟩
    rw [List.map_cons, List.nodup_cons] at hd
    rcases List.mem_cons.mp he with heq | hmem
    · subst heq
      simp [alookup]
    · have hk : k ≠ e.1 := by
        intro hcontra
        exact hd.1 (hcontra ▸ (List.mem_map.mpr ⟨e, hmem, rfl⟩))
      simp only [alookup, if_neg hk]
      exact ih hd.2 hmem

theorem mem_of_alookup {α β : Type} [DecidableEq α] (d : List (α × β)) (k : α) (v : β)
    (h : alookup k d = some v) : (k, v) ∈ d := by
  induction d with
  | nil => exact absurd h (by simp [alookup])
  | cons hd tl ih =>
    rcases hd with ⟨k', v'⟩
    by_cases hk : k' = k
    · subst hk
      rw [alookup, if_pos rfl] at h
      have := Option.some.inj h
      subst this
      exact List.mem_cons_self _ _
    · rw [alookup, if_neg hk] at h
      exact List.mem_cons_of_mem _ (ih h)

theorem matchCountSource_eq_zero (T : Nat) (entries : List Entry) (i j : Nat)
    (lhs : List HashVal) (hij : j ≠ i)
    (h : alookup j (similarComicIndexDict T entries i lhs) = none) :
    matchCountSource T entries j lhs = 0 := by
  rw [similarComicIndexDict_eq_stream] at h
  rcases alookup_foldl_dictAdd_none (matchStream T entries i lhs) [] j rfl with
    ⟨_, hfe⟩ | ⟨_, hsome⟩
  · unfold matchCountSource
    rw [List.length_eq_zero, List.eq_nil_iff_forall_not_mem]
    intro h' hmem
    rw [List.mem_filter] at hmem
    obtain ⟨hmem', hcond⟩ := hmem
    rw [List.any_eq_true] at hcond
    obtain ⟨pd, hpd, hso⟩ := hcond
    have howner : hashToComicIdx entries pd.1 = j := by simpa using hso
    obtain ⟨li, hget⟩ := List.mem_iff_get?.mp hmem'
    have hst : (j, li, pd.1) ∈ matchStream T entries i lhs := by
      rw [mem_matchStream]
      exact ⟨hij, howner, h', hget, pd.2, by simpa using hpd⟩
    have hfil : (j, li, pd.1) ∈
        (matchStream T entries i lhs).filter (fun t => decide (t.1 = j)) :=
      List.mem_filter.mpr ⟨hst, by simp⟩
    rw [hfe] at hfil
    exact absurd hfil (List.not_mem_nil _)
  · rw [h] at hsome
    exact absurd hsome (by simp)

theorem filterJ_ne_nil_iff (T : Nat) (entries : List Entry) (i : Nat)
    (lhs : List HashVal) (j : Nat) :
    ((matchStream T entries i lhs).filter (fun t => decide (t.1 = j))) ≠ [] ↔
      (j ≠ i ∧ ∃ h ∈ lhs, ∃ p e, entries.get? p = some e ∧ e.comicIdx = j ∧
        hammingDistNat h e.hash ≤ T) := by
  constructor
  · intro hne
    obtain ⟨t, hmem⟩ := List.exists_mem_of_ne_nil _ hne
    rw [List.mem_filter] at hmem
    obtain ⟨hst, hkey⟩ := hmem
    obtain ⟨j', li, p⟩ := t
    have hj' : j' = j := by simpa using hkey
    subst hj'
    rw [mem_matchStream] at hst
    obtain ⟨hne', howner, h, hget, dv, hsim⟩ := hst
    rw [mem_similarList] at hsim
    obtain ⟨e, hgetp, hdist, rfl⟩ := hsim
    have hec : e.comicIdx = j' := by
      have hh : hashToComicIdx entries p = e.comicIdx := by
        unfold hashToComicIdx
        rw [hgetp]
        rfl
      rw [← hh, howner]
    exact ⟨hne', h, List.mem_iff_get?.mpr ⟨li, hget⟩, p, e, hgetp, hec, hdist⟩
  · rintro ⟨hne', h, hmem, p, e, hgetp, hec, hdist⟩ hfe
    obtain ⟨li, hget⟩ := List.mem_iff_get?.mp hmem
    have howner : hashToComicIdx entries p = j := by
      unfold hashToComicIdx
      rw [hgetp]
      simpa using hec
    have hst : (j, li, p) ∈ matchStream T entries i lhs := by
      rw [mem_matchStream]
      exact ⟨hne', howner, h, hget, hammingDistNat h e.hash,
        (mem_similarList T entries h p _).mpr ⟨e, hgetp, hdist, rfl⟩⟩
    have hfil : (j, li, p) ∈
        (matchStream T entries i lhs).filter (fun t => decide (t.1 = j)) :=
      List.mem_filter.mpr ⟨hst, by simp⟩
    rw [hfe] at hfil
    exact absurd hfil (List.not_mem_nil _)

/-! ### C1 (amended) -/

/-- C1 amended: in the detection pass the source comic at index `i`
computes Hamming distances from its surviving fingerprints against the
whole corpus array, so the neighbor comics it records are exactly the
comics `j ≠ i` — lower- or higher-indexed — owning some corpus fingerprint
within the similarity threshold of one of `i`'s fingerprints; each
unordered pair of processed comics is therefore compared from both sides,
not only by the lower-indexed one. -/
theorem claim_C1_amended (T : Nat) (entries : List Entry) (i : Nat)
    (lhs : List HashVal) (j : Nat) :
    (alookup j (similarComicIndexDict T entries i lhs)).isSome = true ↔
      (j ≠ i ∧ ∃ h ∈ lhs, ∃ p e, entries.get? p = some e ∧ e.comicIdx = j ∧
        hammingDistNat h e.hash ≤ T) := by
  rw [similarComicIndexDict_eq_stream]
  rcases alookup_foldl_dictAdd_none (matchStream T entries i lhs) [] j rfl with
    ⟨hn, hfe⟩ | ⟨hfne, hs⟩
  · rw [hn]
    simp only [Option.isSome_none, Bool.false_eq_true, false_iff]
    intro hr
    exact (filterJ_ne_nil_iff T entries i lhs j).mpr hr hfe
  · rw [hs]
    simp only [Option.isSome_some, true_iff]
    exact (filterJ_ne_nil_iff T entries i lhs j).mp hfne

/-! ### C2 -/

/-- C2: for a source comic at index `i` with surviving fingerprints `lhs`
and any candidate neighbor `j` (with at least one similar image required),
`j` is linked — listed in `valid_similar_comics`, hence included in the
new duplicate group — iff both distinct-match counts reach the
minimum-similar-images setting, and the value recorded for `j` in the
match-count vector (`countsOfDict`) is the minimum of the two
distinct-match counts. -/
theorem claim_C2 (T msi : Nat) (entries : List Entry) (i j : Nat)
    (lhs : List HashVal) (hmsi : 1 ≤ msi) (hij : j ≠ i) :
    (j ∈ validSimilarComics msi (similarComicIndexDict T entries i lhs) ↔
      (msi ≤ matchCountSource T entries j lhs ∧
        msi ≤ matchCountNeighbor T entries j lhs)) ∧
    (∀ ab, alookup j (similarComicIndexDict T entries i lhs) = some ab →
      min ab.1.card ab.2.card =
        min (matchCountSource T entries j lhs) (matchCountNeighbor T entries j lhs)) := by
  constructor
  · constructor
    · intro hmem
      unfold validSimilarComics at hmem
      rw [List.mem_map] at hmem
      obtain ⟨e, he, hj⟩ := hmem
      rw [List.mem_filter] at he
      obtain ⟨hed, hcond⟩ := he
      have hlook : alookup j (similarComicIndexDict T entries i lhs) = some e.2 := by
        rw [← hj]
        exact alookup_eq_of_mem _ (similarComicIndexDict_keys_nodup T entries i lhs) e hed
      obtain ⟨hc1, hc2⟩ := dict_lookup_some_cards T entries i j lhs e.2 hij hlook
      rw [decide_eq_true_eq] at hcond
      rw [hc1, hc2] at hcond
      exact le_min_iff.mp hcond
    · rintro ⟨ha, hb⟩
      cases hlook : alookup j (similarComicIndexDict T entries i lhs) with
      | none =>
        have h0 := matchCountSource_eq_zero T entries i j lhs hij hlook
        omega
      | some ab =>
        obtain ⟨hc1, hc2⟩ := dict_lookup_some_cards T entries i j lhs ab hij hlook
        unfold validSimilarComics
        rw [List.mem_map]
        refine ⟨(j, ab), ?_, rfl⟩
        rw [List.mem_filter]
        refine ⟨mem_of_alookup _ _ _ hlook, ?_⟩
        rw [decide_eq_true_eq, hc1, hc2]
        exact le_min ha hb
  · intro ab hab
    obtain ⟨hc1, hc2⟩ := dict_lookup_some_cards T entries i j lhs ab hij hab
    rw [hc1, hc2]

/-- C2 witness: on the two-comic corpus with identical fingerprints,
comic 1 is linked to source comic 0 and both distinct-match counts are
1. -/
theorem claim_C2_witness :
    (1 ∈ validSimilarComics 1 (similarComicIndexDict 0
        (buildEntries [] 0 [comicA5, comicB5]) 0 [5])) ∧
      matchCountSource 0 (buildEntries [] 0 [comicA5, comicB5]) 1 [5] = 1 ∧
      matchCountNeighbor 0 (buildEntries [] 0 [comicA5, comicB5]) 1 [5] = 1 :=
  ⟨((claim_C2 0 1 (buildEntries [] 0 [comicA5, comicB5]) 0 1 [5]
      (by decide) (by decide)).1).mpr ⟨by decide, by decide⟩,
    by decide, by decide⟩

/-! ### Merge-step helper lemmas -/

theorem alookup_aset_self {α β : Type} [DecidableEq α] (m : List (α × β)) (k : α) (v : β) :
    alookup k (aset k v m) = some v := by
  induction m with
  | nil => simp [aset, alookup]
  | cons hd tl ih =>
    rcases hd with ⟨k', v'⟩
    by_cases hk : k' = k <;> simp [aset, alookup, hk, ih]

theorem alookup_aset_ne {α β : Type} [DecidableEq α] (m : List (α × β)) (k k' : α)
    (v : β) (hne : k' ≠ k) : alookup k' (aset k v m) = alookup k' m := by
  induction m with
  | nil =>
    show alookup k' [(k, v)] = none
    simp only [alookup, if_neg (fun h : k = k' => hne h.symm)]
  | cons hd tl ih =>
    rcases hd with ⟨k'', v''⟩
    show alookup k' (if k'' = k then (k, v) :: tl else (k'', v'') :: aset k v tl) = _
    by_cases hk : k'' = k
    · rw [if_pos hk]
      show (if k = k' then some v else alookup k' tl) = _
      rw [if_neg (fun h : k = k' => hne h.symm)]
      show _ = (if k'' = k' then some v'' else alookup k' tl)
      rw [if_neg (fun h : k'' = k' => hne (hk ▸ h ▸ rfl))]
    · rw [if_neg hk]
      show (if k'' = k' then some v'' else alookup k' (aset k v tl)) =
        (if k'' = k' then some v'' else alookup k' tl)
      by_cases hk' : k'' = k'
      · rw [if_pos hk', if_pos hk']
      · rw [if_neg hk', if_neg hk', ih]

theorem alookup_foldl_aset (l : List ComicInfo) (g : DuplicateGroup)
    (m : List (String × DuplicateGroup)) (k : String) :
    alookup k (l.foldl (fun m x => aset x.cacheKey g m) m) =
      if k ∈ l.map (fun c => c.cacheKey) then some g else alookup k m := by
  induction l generalizing m with
  | nil => simp
  | cons x rest ih =>
    rw [List.foldl_cons, ih]
    by_cases hk1 : k ∈ rest.map (fun c => c.cacheKey)
    · simp [hk1]
    · by_cases hk2 : k = x.cacheKey
      · subst hk2
        simp [hk1, alookup_aset_self]
      · simp [hk1, hk2, alookup_aset_ne m x.cacheKey k g hk2]

theorem mem_comicSetAdd (s : List ComicInfo) (x y : ComicInfo) :
    y ∈ comicSetAdd s x ↔ y ∈ s ∨ y = x := by
  unfold comicSetAdd
  split
  · rename_i hin
    have hin : x ∈ s := List.elem_iff.mp hin
    constructor
    · exact Or.inl
    · rintro (hy | rfl)
      · exact hy
      · exact hin
  · simp

theorem mem_comicSetUnion (s t : List ComicInfo) (y : ComicInfo) :
    y ∈ comicSetUnion s t ↔ y ∈ s ∨ y ∈ t := by
  induction t generalizing s with
  | nil => simp [comicSetUnion]
  | cons x rest ih =>
    show y ∈ comicSetUnion (comicSetAdd s x) rest ↔ _
    rw [ih, mem_comicSetAdd]
    simp [or_assoc]

theorem mem_insertDesc (x : ComicInfo) (l : List ComicInfo) (y : ComicInfo) :
    y ∈ insertDesc x l ↔ y = x ∨ y ∈ l := by
  induction l with
  | nil => simp [insertDesc]
  | cons z rest ih =>
    unfold insertDesc
    split
    · simp
    · rw [List.mem_cons, ih, List.mem_cons]
      tauto

theorem mem_sortComicsDesc (l : List ComicInfo) (y : ComicInfo) :
    y ∈ sortComicsDesc l ↔ y ∈ l := by
  induction l with
  | nil => simp [sortComicsDesc]
  | cons x rest ih =>
    show y ∈ insertDesc x (sortComicsDesc rest) ↔ _
    rw [mem_insertDesc, ih, List.mem_cons]

theorem mergeFold_cons (map : List (String × DuplicateGroup)) (x : ComicInfo)
    (rest : List ComicInfo) (a : List ComicInfo) (e : Finset Ev)
    (gs : List DuplicateGroup) :
    mergeFold map (x :: rest) a e gs =
      match alookup x.cacheKey map with
      | none => mergeFold map rest a e gs
      | some g => mergeFold map rest (comicSetUnion a g.comics)
          (e ∪ g.similarHashGroups) (gs.filter (fun q => q.gid ≠ g.gid)) := by
  cases hl : alookup x.cacheKey map <;> simp [mergeFold, hl]

theorem mergeFold_comics_mem (map : List (String × DuplicateGroup))
    (sc : List ComicInfo) (acc0 : List ComicInfo) (ev0 : Finset Ev)
    (g0 : List DuplicateGroup) (y : ComicInfo) :
    y ∈ (mergeFold map sc acc0 ev0 g0).1 ↔
      y ∈ acc0 ∨ ∃ x ∈ sc, ∃ g, alookup x.cacheKey map = some g ∧ y ∈ g.comics := by
  induction sc generalizing acc0 ev0 g0 with
  | nil => simp [mergeFold]
  | cons x rest ih =>
    rw [mergeFold_cons]
    cases hl : alookup x.cacheKey map with
    | none =>
      rw [ih]
      constructor
      · rintro (hy | ⟨x', hx', hg⟩)
        · exact Or.inl hy
        · exact Or.inr ⟨x', List.mem_cons_of_mem _ hx', hg⟩
      · rintro (hy | ⟨x', hx', g, hg, hyg⟩)
        · exact Or.inl hy
        · rcases List.mem_cons.mp hx' with rfl | hx''
          · rw [hl] at hg
            exact absurd hg (by simp)
          · exact Or.inr ⟨x', hx'', g, hg, hyg⟩
    | some g =>
      rw [ih, mem_comicSetUnion]
      constructor
      · rintro ((hy | hyg) | ⟨x', hx', hg⟩)
        · exact Or.inl hy
        · exact Or.inr ⟨x, List.mem_cons_self _ _, g, hl, hyg⟩
        · exact Or.inr ⟨x', List.mem_cons_of_mem _ hx', hg⟩
      · rintro (hy | ⟨x', hx', g', hg', hyg⟩)
        · exact Or.inl (Or.inl hy)
        · rcases List.mem_cons.mp hx' with rfl | hx''
          · rw [hl] at hg'
            have := Option.some.inj hg'
            subst this
            exact Or.inl (Or.inr hyg)
          · exact Or.inr ⟨x', hx'', g', hg', hyg⟩

theorem mergeFold_ev_mem (map : List (String × DuplicateGroup))
    (sc : List ComicInfo) (acc0 : List ComicInfo) (ev0 : Finset Ev)
    (g0 : List DuplicateGroup) (e : Ev) :
    e ∈ (mergeFold map sc acc0 ev0 g0).2.1 ↔
      e ∈ ev0 ∨ ∃ x ∈ sc, ∃ g, alookup x.cacheKey map = some g ∧
        e ∈ g.similarHashGroups := by
  induction sc generalizing acc0 ev0 g0 with
  | nil => simp [mergeFold]
  | cons x rest ih =>
    rw [mergeFold_cons]
    cases hl : alookup x.cacheKey map with
    | none =>
      rw [ih]
      constructor
      · rintro (hy | ⟨x', hx', hg⟩)
        · exact Or.inl hy
        · exact Or.inr ⟨x', List.mem_cons_of_mem _ hx', hg⟩
      · rintro (hy | ⟨x', hx', g, hg, hyg⟩)
        · exact Or.inl hy
        · rcases List.mem_cons.mp hx' with rfl | hx''
          · rw [hl] at hg
            exact absurd hg (by simp)
          · exact Or.inr ⟨x', hx'', g, hg, hyg⟩
    | some g =>
      rw [ih]
      rw [Finset.mem_union]
      constructor
      · rintro ((hy | hyg) | ⟨x', hx', hg⟩)
        · exact Or.inl hy
        · exact Or.inr ⟨x, List.mem_cons_self _ _, g, hl, hyg⟩
        · exact Or.inr ⟨x', List.mem_cons_of_mem _ hx', hg⟩
      · rintro (hy | ⟨x', hx', g', hg', hyg⟩)
        · exact Or.inl (Or.inl hy)
        · rcases List.mem_cons.mp hx' with rfl | hx''
          · rw [hl] at hg'
            have := Option.some.inj hg'
            subst this
            exact Or.inl (Or.inr hyg)
          · exact Or.inr ⟨x', hx'', g', hg', hyg⟩

theorem mergeFold_groups_mem (map : List (String × DuplicateGroup))
    (sc : List ComicInfo) (acc0 : List ComicInfo) (ev0 : Finset Ev)
    (g0 : List DuplicateGroup) (q : DuplicateGroup) :
    q ∈ (mergeFold map sc acc0 ev0 g0).2.2 ↔
      q ∈ g0 ∧ ∀ x ∈ sc, ∀ g, alookup x.cacheKey map = some g → g.gid ≠ q.gid := by
  induction sc generalizing acc0 ev0 g0 with
  | nil => simp [mergeFold]
  | cons x rest ih =>
    rw [mergeFold_cons]
    cases hl : alookup x.cacheKey map with
    | none =>
      rw [ih]
      constructor
      · rintro ⟨hq, hall⟩
        refine ⟨hq, ?_⟩
        intro x' hx' g hg
        rcases List.mem_cons.mp hx' with rfl | hx''
        · rw [hl] at hg
          exact absurd hg (by simp)
        · exact hall x' hx'' g hg
      · rintro ⟨hq, hall⟩
        exact ⟨hq, fun x' hx' g hg => hall x' (List.mem_cons_of_mem _ hx') g hg⟩
    | some g =>
      rw [ih]
      constructor
      · rintro ⟨hq, hall⟩
        rw [List.mem_filter, decide_eq_true_eq] at hq
        refine ⟨hq.1, ?_⟩
        intro x' hx' g' hg'
        rcases List.mem_cons.mp hx' with rfl | hx''
        · rw [hl] at hg'
          have := Option.some.inj hg'
          subst this
          exact Ne.symm hq.2
        · exact hall x' hx'' g' hg'
      · rintro ⟨hq, hall⟩
        refine ⟨?_, fun x' hx' g' hg' => hall x' (List.mem_cons_of_mem _ hx') g' hg'⟩
        rw [List.mem_filter, decide_eq_true_eq]
        exact ⟨hq, Ne.symm (hall x (List.mem_cons_self _ _) g hl)⟩

theorem mergeFold_groups_sublist (map : List (String × DuplicateGroup))
    (sc : List ComicInfo) (acc0 : List ComicInfo) (ev0 : Finset Ev)
    (g0 : List DuplicateGroup) :
    (mergeFold map sc acc0 ev0 g0).2.2.Sublist g0 := by
  induction sc generalizing acc0 ev0 g0 with
  | nil => exact List.Sublist.refl _
  | cons x rest ih =>
    rw [mergeFold_cons]
    cases hl : alookup x.cacheKey map with
    | none => exact ih _ _ _
    | some g => exact (ih _ _ _).trans (List.filter_sublist _)

/-! ### Evidence-collection lemmas -/

theorem mem_foldl_body {γ : Type} (l : List γ) (body : Finset Ev → γ → Finset Ev)
    (R : γ → Ev → Prop) (hb : ∀ a x e, e ∈ body a x ↔ e ∈ a ∨ R x e)
    (acc : Finset Ev) (e : Ev) :
    e ∈ l.foldl body acc ↔ e ∈ acc ∨ ∃ x ∈ l, R x e := by
  induction l generalizing acc with
  | nil => simp
  | cons x rest ih =>
    rw [List.foldl_cons, ih, hb]
    constructor
    · rintro ((ha | hr) | ⟨x', hx', hr'⟩)
      · exact Or.inl ha
      · exact Or.inr ⟨x, List.mem_cons_self _ _, hr⟩
      · exact Or.inr ⟨x', List.mem_cons_of_mem _ hx', hr'⟩
    · rintro (ha | ⟨x', hx', hr'⟩)
      · exact Or.inl (Or.inl ha)
      · rcases List.mem_cons.mp hx' with rfl | hx''
        · exact Or.inl (Or.inr hr')
        · exact Or.inr ⟨x', hx'', hr'⟩

theorem mem_foldl_insert_if {γ : Type} (l : List γ) (p : γ → Prop) [DecidablePred p]
    (F : γ → Ev) (acc : Finset Ev) (e : Ev) :
    e ∈ l.foldl (fun a x => if p x then insert (F x) a else a) acc ↔
      e ∈ acc ∨ ∃ x ∈ l, p x ∧ e = F x := by
  refine mem_foldl_body l _ (fun x e => p x ∧ e = F x) ?_ acc e
  intro a x e'
  by_cases hp : p x
  · rw [if_pos hp, Finset.mem_insert]
    constructor
    · rintro (rfl | ha)
      · exact Or.inr ⟨hp, rfl⟩
      · exact Or.inl ha
    · rintro (ha | ⟨_, rfl⟩)
      · exact Or.inr ha
      · exact Or.inl rfl
  · rw [if_neg hp]
    simp [hp]

theorem mem_buildEvidence (T : Nat) (entries : List Entry) (sorted : List ComicInfo)
    (c : ComicInfo) (surv : List (Nat × HashVal)) (validSim : List Nat) (e : Ev) :
    e ∈ buildEvidence T entries sorted c surv validSim ↔
      ∃ j ∈ validSim, ∃ cj, sorted.get? j = some cj ∧ ∃ lio ∈ surv.enum,
        ∃ pd ∈ similarList T entries lio.2.2, hashToComicIdx entries pd.1 = j ∧
          e = normPair (c.imageHashes.getD lio.2.1 0)
            (cj.imageHashes.getD (hashToImageIdx entries pd.1) 0) pd.2 := by
  have houter := mem_foldl_body validSim
    (fun acc j =>
      match sorted.get? j with
      | none => acc
      | some cj =>
        surv.enum.foldl (fun acc lio =>
          (similarList T entries lio.2.2).foldl (fun acc pd =>
            if hashToComicIdx entries pd.1 = j then
              insert (normPair (c.imageHashes.getD lio.2.1 0)
                       (cj.imageHashes.getD (hashToImageIdx entries pd.1) 0) pd.2) acc
            else acc) acc) acc)
    (fun j e => ∃ cj, sorted.get? j = some cj ∧ ∃ lio ∈ surv.enum,
      ∃ pd ∈ similarList T entries lio.2.2, hashToComicIdx entries pd.1 = j ∧
        e = normPair (c.imageHashes.getD lio.2.1 0)
          (cj.imageHashes.getD (hashToImageIdx entries pd.1) 0) pd.2)
    ?_ ∅ e
  · exact Iff.trans houter (by simp)
  · intro a j e'
    cases hg : sorted.get? j with
    | none =>
      simp only [hg]
      simp
    | some cj =>
      have hmiddle := mem_foldl_body surv.enum
        (fun acc lio =>
          (similarList T entries lio.2.2).foldl (fun acc pd =>
            if hashToComicIdx entries pd.1 = j then
              insert (normPair (c.imageHashes.getD lio.2.1 0)
                       (cj.imageHashes.getD (hashToImageIdx entries pd.1) 0) pd.2) acc
            else acc) acc)
        (fun lio e => ∃ pd ∈ similarList T entries lio.2.2,
          hashToComicIdx entries pd.1 = j ∧
            e = normPair (c.imageHashes.getD lio.2.1 0)
              (cj.imageHashes.getD (hashToImageIdx entries pd.1) 0) pd.2)
        (fun a lio e' => mem_foldl_insert_if (similarList T entries lio.2.2)
          (fun pd => hashToComicIdx entries pd.1 = j)
          (fun pd => normPair (c.imageHashes.getD lio.2.1 0)
            (cj.imageHashes.getD (hashToImageIdx entries pd.1) 0) pd.2) a e')
        a e'
      simp only [hg]
      rw [hmiddle]
      simp

theorem mem_buildEntries (blacklist : List HashVal) (T : Nat)
    (comics : List ComicInfo) (e : Entry) :
    e ∈ buildEntries blacklist T comics ↔
      ∃ p ∈ comics.enum, ∃ q ∈ comicSurvivors blacklist T p.2,
        e = ⟨p.1, q.1, q.2⟩ := by
  unfold buildEntries
  rw [List.mem_flatMap]
  constructor
  · rintro ⟨p, hp, hmem⟩
    rw [List.mem_map] at hmem
    obtain ⟨q, hq, rfl⟩ := hmem
    exact ⟨p, hp, q, hq, rfl⟩
  · rintro ⟨p, hp, q, hq, rfl⟩
    exact ⟨p, hp, List.mem_map.mpr ⟨q, hq, rfl⟩⟩

theorem comicSurvivors_spec (blacklist : List HashVal) (T : Nat) (c : ComicInfo)
    (q : Nat × HashVal) (hq : q ∈ comicSurvivors blacklist T c) :
    c.imageHashes.get? q.1 = some q.2 ∧ isBlacklisted blacklist T q.2 = false := by
  unfold comicSurvivors at hq
  rw [List.mem_filter] at hq
  exact ⟨List.mem_enum_iff_get?.mp hq.1, by simpa using hq.2⟩

theorem getD_of_get? {α : Type} (l : List α) (n : Nat) (a d : α)
    (h : l.get? n = some a) : l.getD n d = a := by
  rw [List.getD_eq_get?, h]
  rfl

/-- Every slot of the corpus array points back at a surviving image of the
owning comic in the processing order, and its fingerprint is not within
threshold of the blacklist. -/
theorem buildEntries_clean (blacklist : List HashVal) (T : Nat)
    (sorted : List ComicInfo) (e : Entry) (he : e ∈ buildEntries blacklist T sorted) :
    ∃ c', sorted.get? e.comicIdx = some c' ∧
      c'.imageHashes.get? e.imageIdx = some e.hash ∧
      isBlacklisted blacklist T e.hash = false := by
  rw [mem_buildEntries] at he
  obtain ⟨p, hp, q, hq, rfl⟩ := he
  obtain ⟨hget, hclean⟩ := comicSurvivors_spec blacklist T p.2 q hq
  exact ⟨p.2, List.mem_enum_iff_get?.mp hp, hget, hclean⟩

theorem normEv_normPair (h1 h2 : HashVal) (d : Nat) : NormEv (normPair h1 h2 d) := by
  unfold normPair NormEv
  split
  · rename_i hlt
    exact le_of_lt hlt
  · rename_i hnlt
    exact le_of_not_lt hnlt

/-- The endpoints of a `normPair` are the two inputs, in some order. -/
theorem normPair_endpoints (h1 h2 : HashVal) (d : Nat) :
    ((normPair h1 h2 d).1 = h1 ∧ (normPair h1 h2 d).2.1 = h2) ∨
      ((normPair h1 h2 d).1 = h2 ∧ (normPair h1 h2 d).2.1 = h1) := by
  unfold normPair
  split
  · exact Or.inr ⟨rfl, rfl⟩
  · exact Or.inl ⟨rfl, rfl⟩

/-- In the real detection configuration (corpus built by `buildEntries`
from the sorted comic list, survivors computed by `comicSurvivors`), every
evidence pair produced by `buildEvidence` has blacklist-clean endpoints. -/
theorem buildEvidence_clean (blacklist : List HashVal) (T : Nat)
    (sorted : List ComicInfo) (c : ComicInfo) (validSim : List Nat) (e : Ev)
    (he : e ∈ buildEvidence T (buildEntries blacklist T sorted) sorted c
      (comicSurvivors blacklist T c) validSim) :
    isBlacklisted blacklist T e.1 = false ∧ isBlacklisted blacklist T e.2.1 = false := by
  rw [mem_buildEvidence] at he
  obtain ⟨j, hj, cj, hcj, lio, hlio, pd, hpd, howner, rfl⟩ := he
  have hsv : lio.2 ∈ comicSurvivors blacklist T c :=
    List.mem_iff_get?.mpr ⟨lio.1, List.mem_enum_iff_get?.mp hlio⟩
  obtain ⟨hget1, hcl1⟩ := comicSurvivors_spec blacklist T c lio.2 hsv
  have hh1 : c.imageHashes.getD lio.2.1 0 = lio.2.2 :=
    getD_of_get? _ _ _ _ hget1
  obtain ⟨e', hgetp, hdT, hdeq⟩ :=
    (mem_similarList T (buildEntries blacklist T sorted) lio.2.2 pd.1 pd.2).mp
      (by cases pd with | mk a b => exact hpd)
  have he'mem : e' ∈ buildEntries blacklist T sorted :=
    List.mem_iff_get?.mpr ⟨pd.1, hgetp⟩
  obtain ⟨c', hc', hgetim, hcl2⟩ := buildEntries_clean blacklist T sorted e' he'mem
  have hje : e'.comicIdx = j := by
    unfold hashToComicIdx at howner
    rw [hgetp] at howner
    exact howner
  have hcc : c' = cj := by
    rw [hje, hcj] at hc'
    exact (Option.some.inj hc').symm
  have himgidx : hashToImageIdx (buildEntries blacklist T sorted) pd.1 = e'.imageIdx := by
    unfold hashToImageIdx
    rw [hgetp]
    rfl
  have hh2 : cj.imageHashes.getD (hashToImageIdx (buildEntries blacklist T sorted) pd.1) 0
      = e'.hash := by
    rw [himgidx, ← hcc]
    exact getD_of_get? _ _ _ _ hgetim
  rcases normPair_endpoints (c.imageHashes.getD lio.2.1 0)
      (cj.imageHashes.getD (hashToImageIdx (buildEntries blacklist T sorted) pd.1) 0)
      pd.2 with ⟨ha, hb⟩ | ⟨ha, hb⟩
  · rw [ha, hb, hh1, hh2]
    exact ⟨hcl1, hcl2⟩
  · rw [ha, hb, hh1, hh2]
    exact ⟨hcl2, hcl1⟩

/-! ### The detection-loop invariant -/

/-- The cache keys of a group's members. -/
def memberKeys (g : DuplicateGroup) : List String :=
  g.comics.map (fun c => c.cacheKey)

/-- The loop invariant of the detection pass over (result list,
comic→group map, arena counter), parametrized by a property `Q` of
evidence pairs: every map entry points at a current group that contains
that key, every member key of a current group maps back to that very
group, arena ids are duplicate-free and below the counter, and all
current evidence satisfies `Q`. -/
def InvCore (Q : Ev → Prop) (groups : List DuplicateGroup)
    (map : List (String × DuplicateGroup)) (nextGid : Nat) : Prop :=
  (∀ k g, alookup k map = some g → g ∈ groups ∧ k ∈ memberKeys g) ∧
  (∀ g ∈ groups, ∀ k ∈ memberKeys g, alookup k map = some g) ∧
  (groups.map (fun g => g.gid)).Nodup ∧
  (∀ g ∈ groups, g.gid < nextGid) ∧
  (∀ g ∈ groups, ∀ e ∈ g.similarHashGroups, Q e)

theorem invCore_form (Q : Ev → Prop) (groups : List DuplicateGroup)
    (map : List (String × DuplicateGroup)) (nextGid : Nat)
    (sc : List ComicInfo) (evidence : Finset Ev)
    (hQev : ∀ e ∈ evidence, Q e)
    (hinv : InvCore Q groups map nextGid) :
    InvCore Q
      ((mergeFold map sc (comicSetUnion [] sc) evidence groups).2.2 ++
        [⟨nextGid,
          sortComicsDesc (mergeFold map sc (comicSetUnion [] sc) evidence groups).1,
          (mergeFold map sc (comicSetUnion [] sc) evidence groups).2.1⟩])
      ((sortComicsDesc (mergeFold map sc (comicSetUnion [] sc) evidence groups).1).foldl
        (fun m x => aset x.cacheKey
          ⟨nextGid,
            sortComicsDesc (mergeFold map sc (comicSetUnion [] sc) evidence groups).1,
            (mergeFold map sc (comicSetUnion [] sc) evidence groups).2.1⟩ m) map)
      (nextGid + 1) := by
  obtain ⟨hlook, hmem, hnodup, hlt, hev⟩ := hinv
  set M := mergeFold map sc (comicSetUnion [] sc) evidence groups with hM
  set N : DuplicateGroup := ⟨nextGid, sortComicsDesc M.1, M.2.1⟩ with hN
  have hginj : ∀ g1 ∈ groups, ∀ g2 ∈ groups, g1.gid = g2.gid → g1 = g2 :=
    fun g1 h1 g2 h2 he => List.inj_on_of_nodup_map hnodup h1 h2 he
  have hMsub : M.2.2.Sublist groups := mergeFold_groups_sublist map sc _ _ _
  have hMmem : ∀ g ∈ M.2.2, g ∈ groups := fun g hg => hMsub.subset hg
  -- a key of an old group that was merged is a key of the new group
  have hkeyN : ∀ k, k ∈ memberKeys N ↔
      ∃ y, y ∈ M.1 ∧ y.cacheKey = k := by
    intro k
    show k ∈ (sortComicsDesc M.1).map (fun c => c.cacheKey) ↔ _
    rw [List.mem_map]
    constructor
    · rintro ⟨y, hy, rfl⟩
      exact ⟨y, (mem_sortComicsDesc M.1 y).mp hy, rfl⟩
    · rintro ⟨y, hy, rfl⟩
      exact ⟨y, (mem_sortComicsDesc M.1 y).mpr hy, rfl⟩
  -- a surviving old group shares no key with the new group
  have hdisjoint : ∀ g ∈ M.2.2, ∀ k ∈ memberKeys g, k ∉ memberKeys N := by
    intro g hgM k hkg hkN
    have hgG : g ∈ groups := hMmem g hgM
    have hlookk : alookup k map = some g := hmem g hgG k hkg
    obtain ⟨y, hyM, rfl⟩ := (hkeyN _).mp hkN
    have hremoved := (mergeFold_groups_mem map sc _ _ _ g).mp hgM
    rcases (mergeFold_comics_mem map sc _ _ _ y).mp hyM with hyu | ⟨x, hx, g', hg', hyg'⟩
    · have hysc : y ∈ sc := by
        rcases (mem_comicSetUnion [] sc y).mp hyu with h0 | h1
        · exact absurd h0 (List.not_mem_nil y)
        · exact h1
      exact hremoved.2 y hysc g hlookk rfl
    · have hg'G : g' ∈ groups := (hlook x.cacheKey g' hg').1
      have hyk : y.cacheKey ∈ memberKeys g' := List.mem_map.mpr ⟨y, hyg', rfl⟩
      have hlook' : alookup y.cacheKey map = some g' := hmem g' hg'G y.cacheKey hyk
      have : g' = g := by
        rw [hlookk] at hlook'
        exact (Option.some.inj hlook').symm
      subst this
      exact hremoved.2 x hx g' hg' rfl
  have hNnotG : N.gid ∉ M.2.2.map (fun g => g.gid) := by
    intro hcontra
    rw [List.mem_map] at hcontra
    obtain ⟨g, hg, hgid⟩ := hcontra
    exact absurd hgid (Nat.ne_of_lt (hlt g (hMmem g hg)))
  refine ⟨?_, ?_, ?_, ?_, ?_⟩
  · -- lookMem
    intro k g hkg
    rw [alookup_foldl_aset] at hkg
    split at hkg
    · rename_i hkin
      have : g = N := (Option.some.inj hkg).symm
      subst this
      exact ⟨List.mem_append_right _ (List.mem_cons_self _ _), hkin⟩
    · rename_i hkout
      obtain ⟨hgG, hkmem⟩ := hlook k g hkg
      refine ⟨List.mem_append_left _ ?_, hkmem⟩
      rw [mergeFold_groups_mem]
      refine ⟨hgG, ?_⟩
      intro x hx g' hg' hgid
      have hg'G : g' ∈ groups := (hlook x.cacheKey g' hg').1
      have : g' = g := hginj g' hg'G g hgG hgid
      subst this
      -- g' = g was merged in, so g's keys are keys of N, contradicting hkout
      have hyg : ∀ y ∈ g'.comics, y ∈ M.1 := by
        intro y hy
        rw [mergeFold_comics_mem]
        exact Or.inr ⟨x, hx, g', hg', hy⟩
      obtain ⟨y, hy, rfl⟩ := List.mem_map.mp hkmem
      exact hkout ((hkeyN _).mpr ⟨y, hyg y hy, rfl⟩)
  · -- memLook
    intro g hg k hk
    rcases List.mem_append.mp hg with hgM | hgN
    · have hkout : ¬k ∈ (sortComicsDesc M.1).map (fun c => c.cacheKey) :=
        hdisjoint g hgM k hk
      rw [alookup_foldl_aset, if_neg hkout]
      exact hmem g (hMmem g hgM) k hk
    · have : g = N := by
        rcases List.mem_cons.mp hgN with h | h
        · exact h
        · exact absurd h (List.not_mem_nil g)
      subst this
      rw [alookup_foldl_aset,
        if_pos (show k ∈ (sortComicsDesc M.1).map (fun c => c.cacheKey) from hk)]
  · -- gidNodup
    rw [List.map_append]
    have h1 : (M.2.2.map (fun g => g.gid)).Nodup :=
      List.Nodup.sublist (List.Sublist.map _ hMsub) hnodup
    have h2 : ([N].map (fun g => g.gid)).Nodup := List.nodup_singleton _
    refine List.Nodup.append h1 h2 ?_
    intro a ha hb
    rcases List.mem_cons.mp hb with rfl | hb'
    · exact hNnotG ha
    · exact absurd hb' (List.not_mem_nil a)
  · -- gidLt
    intro g hg
    rcases List.mem_append.mp hg with hgM | hgN
    · exact Nat.lt_succ_of_lt (hlt g (hMmem g hgM))
    · have : g = N := by
        rcases List.mem_cons.mp hgN with h | h
        · exact h
        · exact absurd h (List.not_mem_nil g)
      subst this
      exact Nat.lt_succ_self _
  · -- evQ
    intro g hg e he
    rcases List.mem_append.mp hg with hgM | hgN
    · exact hev g (hMmem g hgM) e he
    · have : g = N := by
        rcases List.mem_cons.mp hgN with h | h
        · exact h
        · exact absurd h (List.not_mem_nil g)
      subst this
      rcases (mergeFold_ev_mem map sc _ _ _ e).mp he with hev0 | ⟨x, hx, g', hg', heg'⟩
      · exact hQev e hev0
      · exact hev g' (hlook x.cacheKey g' hg').1 e heg'

/-- Every evidence pair kept by the replay filter comes from the cached
evidence list, is within the current threshold, and has blacklist-clean
endpoints (with an empty blacklist no fingerprint is blacklisted at all,
so the shortcut branch keeps this vacuously true). -/
theorem mem_replay_fold (T : Nat) (blacklist : List HashVal)
    (vcg : List ComicInfo) (l : List Ev) (acc : List HashVal × List Ev) (e : Ev)
    (he : e ∈ (l.foldl (replayEvStep T blacklist vcg) acc).2) :
    e ∈ acc.2 ∨ (e ∈ l ∧ e.2.2 ≤ T ∧ isBlacklisted blacklist T e.1 = false ∧
      isBlacklisted blacklist T e.2.1 = false) := by
  induction l generalizing acc with
  | nil => exact Or.inl he
  | cons x rest ih =>
    rw [List.foldl_cons] at he
    have hstep : replayEvStep T blacklist vcg acc x = acc ∨
        (replayEvStep T blacklist vcg acc x = (acc.1, acc.2 ++ [x]) ∧ x.2.2 ≤ T ∧
          isBlacklisted blacklist T x.1 = false ∧
          isBlacklisted blacklist T x.2.1 = false) ∨
        (replayEvStep T blacklist vcg acc x = (acc.1 ++ [x.1, x.2.1], acc.2 ++ [x]) ∧
          x.2.2 ≤ T ∧ isBlacklisted blacklist T x.1 = false ∧
          isBlacklisted blacklist T x.2.1 = false) := by
      unfold replayEvStep
      by_cases h1 : x.2.2 ≤ T
      · rw [if_pos h1]
        split
        · exact Or.inl rfl
        · split
          · exact Or.inl rfl
          · split
            · rename_i hbe
              have hblnil : blacklist = [] := by
                rw [List.isEmpty_iff] at hbe
                exact hbe
              subst hblnil
              exact Or.inr (Or.inl ⟨by cases x with | mk a b => rfl, h1, rfl, rfl⟩)
            · split
              · rename_i hcl
                rw [Bool.and_eq_true, Bool.not_eq_true', Bool.not_eq_true'] at hcl
                exact Or.inr (Or.inr ⟨by cases x with | mk a b => rfl, h1, hcl.1, hcl.2⟩)
              · exact Or.inl rfl
      · rw [if_neg h1]
        exact Or.inl rfl
    rcases hstep with heq | ⟨heq, hx⟩ | ⟨heq, hx⟩ <;> rw [heq] at he
    · rcases ih _ he with h | h
      · exact Or.inl h
      · exact Or.inr ⟨List.mem_cons_of_mem _ h.1, h.2⟩
    all_goals
      rcases ih _ he with h | h
      · rcases List.mem_append.mp h with h' | h'
        · exact Or.inl h'
        · rcases List.mem_cons.mp h' with rfl | h''
          · exact Or.inr ⟨List.mem_cons_self _ _, hx⟩
          · exact absurd h'' (List.not_mem_nil e)
      · exact Or.inr ⟨List.mem_cons_of_mem _ h.1, h.2⟩

/-- Properties of the evidence of a successfully replayed cached group. -/
theorem replayCachedGroup_ev (T minSim : Nat) (blacklist : List HashVal)
    (validComicMap : List (String × ComicInfo)) (g : CachedDuplicateGroup)
    (cs : List ComicInfo) (evs : List Ev)
    (h : replayCachedGroup T minSim blacklist validComicMap g = some (cs, evs)) :
    ∀ e ∈ evs, e ∈ g.similarHashGroups ∧ e.2.2 ≤ T ∧
      isBlacklisted blacklist T e.1 = false ∧
      isBlacklisted blacklist T e.2.1 = false := by
  intro e he
  unfold replayCachedGroup at h
  dsimp only at h
  split at h
  · exact absurd h (by simp)
  · split at h
    · exact absurd h (by simp)
    · have hpair := Option.some.inj h
      have hevs : evs = (g.similarHashGroups.foldl
          (replayEvStep T blacklist
            (g.comicCacheKeys.filterMap (fun k => alookup k validComicMap))) ([], [])).2 :=
        (congrArg Prod.snd hpair).symm
      rw [hevs] at he
      rcases mem_replay_fold T blacklist _ _ _ e he with h0 | hgood
      · exact absurd h0 (List.not_mem_nil e)
      · exact hgood

/-! ### The evidence-only invariant (no disjointness hypothesis needed) -/

/-- Weaker invariant: every group reachable from the result list or the
comic→group map has `Q`-evidence only. -/
def EvInvCore (Q : Ev → Prop) (groups : List DuplicateGroup)
    (map : List (String × DuplicateGroup)) : Prop :=
  (∀ g ∈ groups, ∀ e ∈ g.similarHashGroups, Q e) ∧
  (∀ k g, alookup k map = some g → ∀ e ∈ g.similarHashGroups, Q e)

theorem evInvCore_form (Q : Ev → Prop) (groups : List DuplicateGroup)
    (map : List (String × DuplicateGroup)) (nextGid : Nat)
    (sc : List ComicInfo) (evidence : Finset Ev)
    (hQev : ∀ e ∈ evidence, Q e)
    (hinv : EvInvCore Q groups map) :
    EvInvCore Q
      ((mergeFold map sc (comicSetUnion [] sc) evidence groups).2.2 ++
        [⟨nextGid,
          sortComicsDesc (mergeFold map sc (comicSetUnion [] sc) evidence groups).1,
          (mergeFold map sc (comicSetUnion [] sc) evidence groups).2.1⟩])
      ((sortComicsDesc (mergeFold map sc (comicSetUnion [] sc) evidence groups).1).foldl
        (fun m x => aset x.cacheKey
          ⟨nextGid,
            sortComicsDesc (mergeFold map sc (comicSetUnion [] sc) evidence groups).1,
            (mergeFold map sc (comicSetUnion [] sc) evidence groups).2.1⟩ m) map) := by
  obtain ⟨hg, hm⟩ := hinv
  have hNev : ∀ e ∈ (mergeFold map sc (comicSetUnion [] sc) evidence groups).2.1, Q e := by
    intro e he
    rcases (mergeFold_ev_mem map sc _ _ _ e).mp he with h0 | ⟨x, _, g', hg', heg'⟩
    · exact hQev e h0
    · exact hm x.cacheKey g' hg' e heg'
  constructor
  · intro g hgmem e he
    rcases List.mem_append.mp hgmem with hg1 | hg2
    · exact hg g ((mergeFold_groups_sublist map sc _ _ _).subset hg1) e he
    · rcases List.mem_cons.mp hg2 with rfl | h
      · exact hNev e he
      · exact absurd h (List.not_mem_nil g)
  · intro k g hkg e he
    rw [alookup_foldl_aset] at hkg
    split at hkg
    · have : g = ⟨nextGid,
          sortComicsDesc (mergeFold map sc (comicSetUnion [] sc) evidence groups).1,
          (mergeFold map sc (comicSetUnion [] sc) evidence groups).2.1⟩ :=
        (Option.some.inj hkg).symm
      subst this
      exact hNev e he
    · exact hm k g hkg e he

theorem detectStep_evInv (Q : Ev → Prop) (T minSim : Nat) (blacklist : List HashVal)
    (entries : List Entry) (sortedComics : List ComicInfo) (skipped : List String)
    (st : DetectState) (cic : Nat × ComicInfo)
    (hQ : ∀ (c : ComicInfo) (validSim : List Nat),
      ∀ e ∈ buildEvidence T entries sortedComics c (comicSurvivors blacklist T c)
        validSim, Q e)
    (hinv : EvInvCore Q st.duplicateGroups st.comicToGroupMap) :
    EvInvCore Q
      (detectStep T minSim blacklist entries sortedComics skipped st cic).duplicateGroups
      (detectStep T minSim blacklist entries sortedComics skipped st cic).comicToGroupMap := by
  unfold detectStep
  dsimp only
  split
  · exact hinv
  · split
    · exact hinv
    · split
      · exact hinv
      · exact evInvCore_form Q st.duplicateGroups st.comicToGroupMap st.nextGid _ _
          (hQ cic.2 _) hinv

theorem detectLoop_evInv (Q : Ev → Prop) (T minSim : Nat) (blacklist : List HashVal)
    (entries : List Entry) (sortedComics : List ComicInfo) (skipped : List String)
    (l : List (Nat × ComicInfo)) (st : DetectState)
    (hQ : ∀ (c : ComicInfo) (validSim : List Nat),
      ∀ e ∈ buildEvidence T entries sortedComics c (comicSurvivors blacklist T c)
        validSim, Q e)
    (hinv : EvInvCore Q st.duplicateGroups st.comicToGroupMap) :
    EvInvCore Q
      (l.foldl (detectStep T minSim blacklist entries sortedComics skipped) st).duplicateGroups
      (l.foldl (detectStep T minSim blacklist entries sortedComics skipped) st).comicToGroupMap := by
  induction l generalizing st with
  | nil => exact hinv
  | cons x rest ih =>
    rw [List.foldl_cons]
    exact ih _ (detectStep_evInv Q T minSim blacklist entries sortedComics skipped st x
      hQ hinv)

theorem initMapOf_lookup_mem (gs : List DuplicateGroup) (k : String) (g : DuplicateGroup)
    (h : alookup k (initMapOf gs) = some g) : g ∈ gs ∧ k ∈ memberKeys g := by
  induction gs using List.reverseRecOn with
  | nil => exact absurd h (by simp [initMapOf, alookup])
  | append_singleton gs g' ih =>
    have hunf : initMapOf (gs ++ [g']) =
        g'.comics.foldl (fun m c => aset c.cacheKey g' m) (initMapOf gs) := by
      simp [initMapOf, List.foldl_append]
    rw [hunf, alookup_foldl_aset] at h
    split at h
    · rename_i hin
      have : g = g' := (Option.some.inj h).symm
      subst this
      exact ⟨List.mem_append_right _ (List.mem_cons_self _ _), hin⟩
    · obtain ⟨h1, h2⟩ := ih h
      exact ⟨List.mem_append_left _ h1, h2⟩

theorem initGroupsOf_gids (r : List (List ComicInfo × List Ev)) :
    (initGroupsOf r).map (fun g => g.gid) = List.range r.length := by
  unfold initGroupsOf
  rw [List.map_map]
  have : ((fun g : DuplicateGroup => g.gid) ∘
      fun p : Nat × (List ComicInfo × List Ev) =>
        (⟨p.1, p.2.1, p.2.2.toFinset⟩ : DuplicateGroup)) = Prod.fst := by
    funext p
    rfl
  rw [this, List.enum_map_fst]

theorem initGroupsOf_gid_lt (r : List (List ComicInfo × List Ev))
    (g : DuplicateGroup) (hg : g ∈ initGroupsOf r) : g.gid < r.length := by
  unfold initGroupsOf at hg
  rw [List.mem_map] at hg
  obtain ⟨p, hp, rfl⟩ := hg
  have := List.mem_enum_iff_get?.mp hp
  rw [List.get?_eq_some] at this
  exact this.1

theorem initMapOf_memLook (gs : List DuplicateGroup)
    (hdisj : gs.Pairwise (fun g1 g2 => ∀ k ∈ memberKeys g1, k ∉ memberKeys g2)) :
    ∀ g ∈ gs, ∀ k ∈ memberKeys g, alookup k (initMapOf gs) = some g := by
  induction gs using List.reverseRecOn with
  | nil => intro g hg; exact absurd hg (List.not_mem_nil g)
  | append_singleton gs g' ih =>
    have hunf : initMapOf (gs ++ [g']) =
        g'.comics.foldl (fun m c => aset c.cacheKey g' m) (initMapOf gs) := by
      simp [initMapOf, List.foldl_append]
    rw [List.pairwise_append] at hdisj
    obtain ⟨hpgs, _, hcross⟩ := hdisj
    intro g hg k hk
    rw [hunf, alookup_foldl_aset]
    rcases List.mem_append.mp hg with hg1 | hg2
    · have hknot : k ∉ memberKeys g' :=
        hcross g hg1 g' (List.mem_cons_self _ _) k hk
      rw [if_neg (show ¬k ∈ g'.comics.map (fun c => c.cacheKey) from hknot)]
      exact ih hpgs g hg1 k hk
    · rcases List.mem_cons.mp hg2 with rfl | h
      · rw [if_pos (show k ∈ g.comics.map (fun c => c.cacheKey) from hk)]
      · exact absurd h (List.not_mem_nil g)

theorem invCore_init (Q : Ev → Prop) (r : List (List ComicInfo × List Ev))
    (hdisj : (initGroupsOf r).Pairwise
      (fun g1 g2 => ∀ k ∈ memberKeys g1, k ∉ memberKeys g2))
    (hev : ∀ g ∈ initGroupsOf r, ∀ e ∈ g.similarHashGroups, Q e) :
    InvCore Q (initGroupsOf r) (initMapOf (initGroupsOf r)) (initGroupsOf r).length := by
  refine ⟨?_, ?_, ?_, ?_, hev⟩
  · intro k g h
    exact initMapOf_lookup_mem _ k g h
  · exact initMapOf_memLook _ hdisj
  · rw [initGroupsOf_gids]
    exact List.nodup_range _
  · intro g hg
    have := initGroupsOf_gid_lt r g hg
    have hlen : (initGroupsOf r).length = r.length := by
      unfold initGroupsOf
      rw [List.length_map, List.enum_length]
    rw [hlen]
    exact this

theorem detectStep_inv (Q : Ev → Prop) (T minSim : Nat) (blacklist : List HashVal)
    (entries : List Entry) (sortedComics : List ComicInfo) (skipped : List String)
    (st : DetectState) (cic : Nat × ComicInfo)
    (hQ : ∀ (c : ComicInfo) (validSim : List Nat),
      ∀ e ∈ buildEvidence T entries sortedComics c (comicSurvivors blacklist T c)
        validSim, Q e)
    (hinv : InvCore Q st.duplicateGroups st.comicToGroupMap st.nextGid) :
    InvCore Q
      (detectStep T minSim blacklist entries sortedComics skipped st cic).duplicateGroups
      (detectStep T minSim blacklist entries sortedComics skipped st cic).comicToGroupMap
      (detectStep T minSim blacklist entries sortedComics skipped st cic).nextGid := by
  unfold detectStep
  dsimp only
  split
  · exact hinv
  · split
    · exact hinv
    · split
      · exact hinv
      · exact invCore_form Q st.duplicateGroups st.comicToGroupMap st.nextGid _ _
          (hQ cic.2 _) hinv

theorem detectLoop_inv (Q : Ev → Prop) (T minSim : Nat) (blacklist : List HashVal)
    (entries : List Entry) (sortedComics : List ComicInfo) (skipped : List String)
    (l : List (Nat × ComicInfo)) (st : DetectState)
    (hQ : ∀ (c : ComicInfo) (validSim : List Nat),
      ∀ e ∈ buildEvidence T entries sortedComics c (comicSurvivors blacklist T c)
        validSim, Q e)
    (hinv : InvCore Q st.duplicateGroups st.comicToGroupMap st.nextGid) :
    InvCore Q
      (l.foldl (detectStep T minSim blacklist entries sortedComics skipped) st).duplicateGroups
      (l.foldl (detectStep T minSim blacklist entries sortedComics skipped) st).comicToGroupMap
      (l.foldl (detectStep T minSim blacklist entries sortedComics skipped) st).nextGid := by
  induction l generalizing st with
  | nil => exact hinv
  | cons x rest ih =>
    rw [List.foldl_cons]
    exact ih _ (detectStep_inv Q T minSim blacklist entries sortedComics skipped st x
      hQ hinv)

theorem pairwise_of_invCore (Q : Ev → Prop) (groups : List DuplicateGroup)
    (map : List (String × DuplicateGroup)) (n : Nat)
    (hinv : InvCore Q groups map n) :
    groups.Pairwise (fun g1 g2 => ∀ k ∈ memberKeys g1, k ∉ memberKeys g2) := by
  obtain ⟨hlook, hmem, hnodup, _, _⟩ := hinv
  have hne : groups.Pairwise (fun g1 g2 => g1.gid ≠ g2.gid) :=
    List.pairwise_map.mp hnodup
  refine List.Pairwise.imp_of_mem ?_ hne
  intro g1 g2 h1 h2 hgid k hk1 hk2
  have e1 : alookup k map = some g1 := hmem g1 h1 k hk1
  have e2 : alookup k map = some g2 := hmem g2 h2 k hk2
  rw [e1] at e2
  exact hgid (congrArg DuplicateGroup.gid (Option.some.inj e2))

/-! ### C3 -/

/-- C3: any two duplicate groups in a returned result set are disjoint in
membership (by comic cache key), provided the groups replayed from the
persistent cache — state owned and previously written by this same
engine — are themselves pairwise disjoint.  The merge rule maintains
disjointness through every group formation. -/
theorem claim_C3 (cfg : DetectConfig) (blacklist : List HashVal)
    (cache : Option IndexCache) (comicInfos : List ComicInfo)
    (hdisj : (initGroupsOf (replayedGroups cfg.similarityThreshold cfg.minSimilarImages
        blacklist (validComicMapOf (validComicsOf cfg comicInfos))
        (invalidatedCache cfg.similarityThreshold cfg.minSimilarImages cache).2)).Pairwise
      (fun g1 g2 => ∀ k ∈ memberKeys g1, k ∉ memberKeys g2)) :
    (detectDuplicates cfg blacklist cache comicInfos).Pairwise
      (fun g1 g2 => ∀ k ∈ memberKeys g1, k ∉ memberKeys g2) := by
  unfold detectDuplicates detectFullState
  dsimp only
  split
  · exact List.Pairwise.nil
  · split
    · exact hdisj
    · unfold detectLoop
      refine pairwise_of_invCore (fun _ => True) _ _ _
        (detectLoop_inv (fun _ => True) _ _ _ _ _ _ _ _ (fun _ _ _ _ => trivial) ?_)
      exact invCore_init (fun _ => True)
        (replayedGroups cfg.similarityThreshold cfg.minSimilarImages blacklist
          (validComicMapOf (validComicsOf cfg comicInfos))
          (invalidatedCache cfg.similarityThreshold cfg.minSimilarImages cache).2)
        hdisj (fun _ _ _ _ => trivial)

/-- C3 witness: a run with no persisted cache (vacuously disjoint initial
groups). -/
theorem claim_C3_witness :
    (detectDuplicates ⟨0, 1, 1, none⟩ [] none [comicA5, comicB5]).Pairwise
      (fun g1 g2 => ∀ k ∈ memberKeys g1, k ∉ memberKeys g2) :=
  claim_C3 ⟨0, 1, 1, none⟩ [] none [comicA5, comicB5] List.Pairwise.nil

theorem invalidatedCache_groups_sub (T msi : Nat) (cache : Option IndexCache)
    (gC : CachedDuplicateGroup) (h : gC ∈ (invalidatedCache T msi cache).2) :
    ∃ data, cache = some data ∧ gC ∈ data.cachedDuplicateGroups := by
  cases cache with
  | none => exact absurd h (List.not_mem_nil gC)
  | some data =>
    refine ⟨data, rfl, ?_⟩
    unfold invalidatedCache at h
    dsimp only at h
    split at h
    · exact absurd h (List.not_mem_nil gC)
    · split at h
      · exact absurd h (List.not_mem_nil gC)
      · exact h

/-- Every evidence pair of a replayed (initial) group comes from the
cached evidence of some loaded cached group, is within the current
threshold, and has blacklist-clean endpoints. -/
theorem initGroups_ev_source (T msi : Nat) (blacklist : List HashVal)
    (validMap : List (String × ComicInfo)) (cgs : List CachedDuplicateGroup)
    (g : DuplicateGroup) (hg : g ∈ initGroupsOf (replayedGroups T msi blacklist validMap cgs))
    (e : Ev) (he : e ∈ g.similarHashGroups) :
    ∃ gC ∈ cgs, e ∈ gC.similarHashGroups ∧ e.2.2 ≤ T ∧
      isBlacklisted blacklist T e.1 = false ∧
      isBlacklisted blacklist T e.2.1 = false := by
  unfold initGroupsOf at hg
  rw [List.mem_map] at hg
  obtain ⟨p, hp, rfl⟩ := hg
  rw [List.mem_toFinset] at he
  have hpmem : p.2 ∈ replayedGroups T msi blacklist validMap cgs :=
    List.mem_iff_get?.mpr ⟨p.1, List.mem_enum_iff_get?.mp hp⟩
  unfold replayedGroups at hpmem
  rw [List.mem_filterMap] at hpmem
  obtain ⟨gC, hgC, hrep⟩ := hpmem
  obtain ⟨hsrc, hT, hc1, hc2⟩ :=
    replayCachedGroup_ev T msi blacklist validMap gC p.2.1 p.2.2 hrep e he
  exact ⟨gC, hgC, hsrc, hT, hc1, hc2⟩

theorem evInvCore_init (Q : Ev → Prop) (r : List (List ComicInfo × List Ev))
    (hev : ∀ g ∈ initGroupsOf r, ∀ e ∈ g.similarHashGroups, Q e) :
    EvInvCore Q (initGroupsOf r) (initMapOf (initGroupsOf r)) :=
  ⟨hev, fun k g h => hev g (initMapOf_lookup_mem _ k g h).1⟩

/-! ### C7 -/

/-- C7: (1) every evidence pair in every returned duplicate group is
normalized with the lexicographically smaller hex string first, provided
the evidence loaded from the persistent cache (written by this same
engine) is normalized; and (2) for one detection step, whenever a source
comic `c` is processed and linked to neighbor `j`, every similar
fingerprint pair observed between a surviving image of `c` and a corpus
fingerprint of comic `j` is contained (normalized) in the evidence of a
produced group that contains `c`. -/
theorem claim_C7 (cfg : DetectConfig) (blacklist : List HashVal)
    (cache : Option IndexCache) (comicInfos : List ComicInfo)
    (hcache : ∀ data, cache = some data → ∀ gC ∈ data.cachedDuplicateGroups,
      ∀ e ∈ gC.similarHashGroups, NormEv e) :
    (∀ g ∈ detectDuplicates cfg blacklist cache comicInfos,
      ∀ e ∈ g.similarHashGroups, NormEv e) ∧
    (∀ (T minSim : Nat) (bl : List HashVal) (entries : List Entry)
      (sorted : List ComicInfo) (skipped : List String) (st : DetectState)
      (ci : Nat) (c : ComicInfo) (j : Nat) (cj : ComicInfo)
      (lio : Nat × Nat × HashVal) (pd : Nat × Nat),
      (skipped.contains c.cacheKey && !(st.recallKeys.contains c.cacheKey)) = false →
      (comicSurvivors bl T c).isEmpty = false →
      j ∈ validSimilarComics minSim (similarComicIndexDict T entries ci
        ((comicSurvivors bl T c).map (fun q => q.2))) →
      sorted.get? j = some cj →
      lio ∈ (comicSurvivors bl T c).enum →
      pd ∈ similarList T entries lio.2.2 →
      hashToComicIdx entries pd.1 = j →
      ∃ g ∈ (detectStep T minSim bl entries sorted skipped st (ci, c)).duplicateGroups,
        c ∈ g.comics ∧
          normPair (c.imageHashes.getD lio.2.1 0)
            (cj.imageHashes.getD (hashToImageIdx entries pd.1) 0) pd.2
            ∈ g.similarHashGroups) := by
  constructor
  · have hinitev : ∀ g ∈ initGroupsOf (replayedGroups cfg.similarityThreshold
        cfg.minSimilarImages blacklist (validComicMapOf (validComicsOf cfg comicInfos))
        (invalidatedCache cfg.similarityThreshold cfg.minSimilarImages cache).2),
        ∀ e ∈ g.similarHashGroups, NormEv e := by
      intro g hg e he
      obtain ⟨gC, hgC, hsrc, _, _, _⟩ :=
        initGroups_ev_source _ _ _ _ _ g hg e he
      obtain ⟨data, hdata, hmem⟩ := invalidatedCache_groups_sub _ _ cache gC hgC
      exact hcache data hdata gC hmem e hsrc
    have hQ : ∀ (c : ComicInfo) (validSim : List Nat),
        ∀ e ∈ buildEvidence cfg.similarityThreshold
          (buildEntries blacklist cfg.similarityThreshold
            (sortedComicsOf (validComicsOf cfg comicInfos)
              (skippedKeysOf cfg.minSimilarImages
                (replayedGroups cfg.similarityThreshold cfg.minSimilarImages blacklist
                  (validComicMapOf (validComicsOf cfg comicInfos))
                  (invalidatedCache cfg.similarityThreshold cfg.minSimilarImages cache).2)
                (invalidatedCache cfg.similarityThreshold cfg.minSimilarImages cache).1)))
          (sortedComicsOf (validComicsOf cfg comicInfos)
            (skippedKeysOf cfg.minSimilarImages
              (replayedGroups cfg.similarityThreshold cfg.minSimilarImages blacklist
                (validComicMapOf (validComicsOf cfg comicInfos))
                (invalidatedCache cfg.similarityThreshold cfg.minSimilarImages cache).2)
              (invalidatedCache cfg.similarityThreshold cfg.minSimilarImages cache).1))
          c (comicSurvivors blacklist cfg.similarityThreshold c) validSim,
          NormEv e := by
      intro c validSim e he
      rw [mem_buildEvidence] at he
      obtain ⟨j, _, cj, _, lio, _, pd, _, _, rfl⟩ := he
      exact normEv_normPair _ _ _
    unfold detectDuplicates detectFullState
    dsimp only
    split
    · intro g hg
      exact absurd hg (List.not_mem_nil g)
    · split
      · exact hinitev
      · unfold detectLoop
        exact (detectLoop_evInv NormEv cfg.similarityThreshold cfg.minSimilarImages
          blacklist _ _ _ _ _ hQ (evInvCore_init NormEv _ hinitev)).1
  · intro T minSim bl entries sorted skipped st ci c j cj lio pd
      hskip hsurv hj hcj hlio hpd howner
    have hvs : (validSimilarComics minSim (similarComicIndexDict T entries ci
        ((comicSurvivors bl T c).map (fun q => q.2)))).isEmpty = false := by
      cases hh : (validSimilarComics minSim (similarComicIndexDict T entries ci
          ((comicSurvivors bl T c).map (fun q => q.2)))).isEmpty
      · rfl
      · rw [List.isEmpty_iff] at hh
        rw [hh] at hj
        exact absurd hj (List.not_mem_nil j)
    unfold detectStep
    dsimp only
    rw [hskip]
    simp only [Bool.false_eq_true, if_false, hsurv, hvs]
    refine ⟨_, List.mem_append_right _ (List.mem_cons_self _ _), ?_, ?_⟩
    · show c ∈ sortComicsDesc _
      rw [mem_sortComicsDesc, mergeFold_comics_mem]
      refine Or.inl ?_
      rw [mem_comicSetUnion]
      exact Or.inr (List.mem_cons_self _ _)
    · show _ ∈ (mergeFold _ _ _ _ _).2.1
      rw [mergeFold_ev_mem]
      refine Or.inl ?_
      rw [mem_buildEvidence]
      exact ⟨j, hj, cj, hcj, lio, hlio, pd, hpd, howner, rfl⟩

/-- C7 witness: on the two-comic run the returned group's evidence pair
(5, 5, 0) is normalized. -/
theorem claim_C7_witness : NormEv (5, 5, 0) :=
  (claim_C7 ⟨0, 1, 1, none⟩ [] none [comicA5, comicB5]
      (fun _ hd => absurd hd (by simp))).1
    ⟨1, [comicA5, comicB5], {(5, 5, 0)}⟩
    (by
      have h : detectDuplicates ⟨0, 1, 1, none⟩ [] none [comicA5, comicB5] =
          [⟨1, [comicA5, comicB5], {(5, 5, 0)}⟩] := by with_unfolding_all rfl
      rw [h]
      exact List.mem_singleton_self _)
    (5, 5, 0) (by decide)

/-! ### C8 -/

/-- C8: a fingerprint within the similarity threshold of a blacklist entry
never enters the corpus array built by the engine, and never appears as an
endpoint of any evidence pair of any returned duplicate group. -/
theorem claim_C8 (cfg : DetectConfig) (blacklist : List HashVal)
    (cache : Option IndexCache) (comicInfos : List ComicInfo) (h : HashVal)
    (hbl : isBlacklisted blacklist cfg.similarityThreshold h = true) :
    (∀ (comics : List ComicInfo),
      ∀ e ∈ buildEntries blacklist cfg.similarityThreshold comics, e.hash ≠ h) ∧
    (∀ g ∈ detectDuplicates cfg blacklist cache comicInfos,
      ∀ e ∈ g.similarHashGroups, e.1 ≠ h ∧ e.2.1 ≠ h) := by
  have hofQ : ∀ e : Ev, isBlacklisted blacklist cfg.similarityThreshold e.1 = false ∧
      isBlacklisted blacklist cfg.similarityThreshold e.2.1 = false →
      e.1 ≠ h ∧ e.2.1 ≠ h := by
    rintro e ⟨h1, h2⟩
    constructor
    · intro heq
      rw [heq, hbl] at h1
      exact absurd h1 (by simp)
    · intro heq
      rw [heq, hbl] at h2
      exact absurd h2 (by simp)
  constructor
  · intro comics e he heq
    obtain ⟨c', _, _, hclean⟩ := buildEntries_clean blacklist cfg.similarityThreshold
      comics e he
    rw [heq, hbl] at hclean
    exact absurd hclean (by simp)
  · have hQdef : ∀ (e : Ev), Prop := fun _ => True
    have hinitev : ∀ g ∈ initGroupsOf (replayedGroups cfg.similarityThreshold
        cfg.minSimilarImages blacklist (validComicMapOf (validComicsOf cfg comicInfos))
        (invalidatedCache cfg.similarityThreshold cfg.minSimilarImages cache).2),
        ∀ e ∈ g.similarHashGroups,
          isBlacklisted blacklist cfg.similarityThreshold e.1 = false ∧
            isBlacklisted blacklist cfg.similarityThreshold e.2.1 = false := by
      intro g hg e he
      obtain ⟨gC, _, _, _, hc1, hc2⟩ := initGroups_ev_source _ _ _ _ _ g hg e he
      exact ⟨hc1, hc2⟩
    have hQ : ∀ (c : ComicInfo) (validSim : List Nat),
        ∀ e ∈ buildEvidence cfg.similarityThreshold
          (buildEntries blacklist cfg.similarityThreshold
            (sortedComicsOf (validComicsOf cfg comicInfos)
              (skippedKeysOf cfg.minSimilarImages
                (replayedGroups cfg.similarityThreshold cfg.minSimilarImages blacklist
                  (validComicMapOf (validComicsOf cfg comicInfos))
                  (invalidatedCache cfg.similarityThreshold cfg.minSimilarImages cache).2)
                (invalidatedCache cfg.similarityThreshold cfg.minSimilarImages cache).1)))
          (sortedComicsOf (validComicsOf cfg comicInfos)
            (skippedKeysOf cfg.minSimilarImages
              (replayedGroups cfg.similarityThreshold cfg.minSimilarImages blacklist
                (validComicMapOf (validComicsOf cfg comicInfos))
                (invalidatedCache cfg.similarityThreshold cfg.minSimilarImages cache).2)
              (invalidatedCache cfg.similarityThreshold cfg.minSimilarImages cache).1))
          c (comicSurvivors blacklist cfg.similarityThreshold c) validSim,
          isBlacklisted blacklist cfg.similarityThreshold e.1 = false ∧
            isBlacklisted blacklist cfg.similarityThreshold e.2.1 = false := by
      intro c validSim e he
      exact buildEvidence_clean blacklist cfg.similarityThreshold _ c validSim e he
    unfold detectDuplicates detectFullState
    dsimp only
    split
    · intro g hg
      exact absurd hg (List.not_mem_nil g)
    · split
      · intro g hg e he
        exact hofQ e (hinitev g hg e he)
      · unfold detectLoop
        intro g hg e he
        refine hofQ e ?_
        exact (detectLoop_evInv
          (fun e => isBlacklisted blacklist cfg.similarityThreshold e.1 = false ∧
            isBlacklisted blacklist cfg.similarityThreshold e.2.1 = false)
          cfg.similarityThreshold cfg.minSimilarImages blacklist _ _ _ _ _ hQ
          (evInvCore_init _ _ hinitev)).1 g hg e he

/-- C8 witness: with blacklist entry 255 and threshold 5, the returned
group's evidence endpoints 1 and 2 are not the blacklisted fingerprint. -/
theorem claim_C8_witness : (1 : HashVal) ≠ 255 ∧ (2 : HashVal) ≠ 255 :=
  (claim_C8 ⟨5, 1, 1, none⟩ [255] none [comicKa2, comicKb2] 255 (by decide)).2
    ⟨1, [comicKa2, comicKb2], {(1, 2, 2)}⟩
    (by
      have h : detectDuplicates ⟨5, 1, 1, none⟩ [255] none [comicKa2, comicKb2] =
          [⟨1, [comicKa2, comicKb2], {(1, 2, 2)}⟩] := by with_unfolding_all rfl
      rw [h]
      exact List.mem_singleton_self _)
    (1, 2, 2) (by decide)

/-! ### C9 -/

/-- A one-page comic whose fingerprint 65280 is farther than 5 from 1, 2
and the blacklist entry 255. -/
def comicKf : ComicInfo := ⟨"dir/f.zip", 12, 0, [65280], "kf", none⟩

/-- A loaded index for the C9 witness: the cached group over `ka2`/`kb2`,
stored settings matching the current run. -/
def indexDataC9 : IndexCache := ⟨[], [cachedGroupAB], some 5, some 1⟩

/-- Python's stable `list.sort` with the 0/1 key is the partition putting
the skippable comics last; with an empty skip set the source skips the
sort, which coincides with the partition. -/
theorem sortedComicsOf_eq_partition (valid : List ComicInfo) (skipped : List String) :
    sortedComicsOf valid skipped =
      valid.filter (fun c => !skipped.contains c.cacheKey) ++
      valid.filter (fun c => skipped.contains c.cacheKey) := by
  unfold sortedComicsOf
  by_cases h : skipped.isEmpty
  · rw [if_pos h, List.isEmpty_iff.mp h]
    simp [List.contains]
  · rw [if_neg h]

/-- One detection step never removes a recall key. -/
theorem detectStep_recall_mono (T minSim : Nat) (bl : List HashVal)
    (entries : List Entry) (sorted : List ComicInfo) (skipped : List String)
    (st : DetectState) (cic : Nat × ComicInfo) (k : String)
    (hk : k ∈ st.recallKeys) :
    k ∈ (detectStep T minSim bl entries sorted skipped st cic).recallKeys := by
  unfold detectStep
  dsimp only
  split
  · exact hk
  · split
    · exact hk
    · split
      · exact hk
      · exact List.mem_append_left _ hk

/-- One detection step preserves the invariant that every comic processed
as a source was, at that moment, not skippable or already recalled. -/
theorem detectStep_sourcesOk (T minSim : Nat) (bl : List HashVal)
    (entries : List Entry) (sorted : List ComicInfo) (skipped : List String)
    (st : DetectState) (cic : Nat × ComicInfo)
    (hok : ∀ k ∈ st.sources, ¬ k ∈ skipped ∨ k ∈ st.recallKeys) :
    ∀ k ∈ (detectStep T minSim bl entries sorted skipped st cic).sources,
      ¬ k ∈ skipped ∨
        k ∈ (detectStep T minSim bl entries sorted skipped st cic).recallKeys := by
  unfold detectStep
  dsimp only
  split
  · exact hok
  · rename_i hskip
    have hc : ¬ cic.2.cacheKey ∈ skipped ∨ cic.2.cacheKey ∈ st.recallKeys := by
      by_cases hm : cic.2.cacheKey ∈ skipped
      · by_cases hr : cic.2.cacheKey ∈ st.recallKeys
        · exact Or.inr hr
        · exact absurd (by simp [List.contains, List.elem_iff, hm, hr]) hskip
      · exact Or.inl hm
    split
    · intro k hk
      rcases List.mem_append.mp hk with h1 | h1
      · exact hok k h1
      · rw [List.mem_singleton] at h1
        subst h1
        exact hc
    · split
      · intro k hk
        rcases List.mem_append.mp hk with h1 | h1
        · exact hok k h1
        · rw [List.mem_singleton] at h1
          subst h1
          exact hc
      · intro k hk
        rcases List.mem_append.mp hk with h1 | h1
        · exact (hok k h1).imp_right (List.mem_append_left _)
        · rw [List.mem_singleton] at h1
          subst h1
          exact hc.imp_right (List.mem_append_left _)

/-- The source invariant threaded through the whole detection loop. -/
theorem detectLoop_sourcesOk (T minSim : Nat) (bl : List HashVal)
    (entries : List Entry) (sorted : List ComicInfo) (skipped : List String) :
    ∀ (l : List (Nat × ComicInfo)) (st : DetectState),
      (∀ k ∈ st.sources, ¬ k ∈ skipped ∨ k ∈ st.recallKeys) →
      ∀ k ∈ (l.foldl (detectStep T minSim bl entries sorted skipped) st).sources,
        ¬ k ∈ skipped ∨
          k ∈ (l.foldl (detectStep T minSim bl entries sorted skipped) st).recallKeys := by
  intro l
  induction l with
  | nil => exact fun st h => h
  | cons x t ih =>
    intro st h
    exact ih _ (detectStep_sourcesOk T minSim bl entries sorted skipped st x h)

/-- C9: (1) a comic key is marked skippable exactly when it belongs to a
still-valid (replayed) cached duplicate group or its cached match-count
vector is everywhere below the minimum-similar-images setting; (2) the
processing order is a partition placing every skippable comic after every
non-skippable one; (3) a comic marked skippable that is never recalled
into a newly-discovered group during the run is never processed as a
source by the detection loop. -/
theorem claim_C9 (cfg : DetectConfig) (blacklist : List HashVal)
    (cache : Option IndexCache) (comicInfos : List ComicInfo) :
    (∀ (minSim : Nat) (replayed : List (List ComicInfo × List Ev))
        (dict0 : List (String × List Nat)) (k : String),
      k ∈ skippedKeysOf minSim replayed dict0 ↔
        ((∃ r ∈ replayed, ∃ c ∈ r.1, c.cacheKey = k) ∨
         (∃ kv ∈ dict0, kv.1 = k ∧ ∀ n ∈ kv.2, n < minSim))) ∧
    (∀ (valid : List ComicInfo) (skipped : List String),
      ∃ pre post, sortedComicsOf valid skipped = pre ++ post ∧
        (∀ c ∈ pre, ¬ c.cacheKey ∈ skipped) ∧
        (∀ c ∈ post, c.cacheKey ∈ skipped)) ∧
    (∀ k, k ∈ skippedKeysOf cfg.minSimilarImages
        (replayedGroups cfg.similarityThreshold cfg.minSimilarImages blacklist
          (validComicMapOf (validComicsOf cfg comicInfos))
          (invalidatedCache cfg.similarityThreshold cfg.minSimilarImages cache).2)
        (invalidatedCache cfg.similarityThreshold cfg.minSimilarImages cache).1 →
      ¬ k ∈ (detectFullState cfg blacklist cache comicInfos).recallKeys →
      ¬ k ∈ (detectFullState cfg blacklist cache comicInfos).sources) := by
  refine ⟨?_, ?_, ?_⟩
  · intro minSim replayed dict0 k
    simp only [skippedKeysOf]
    constructor
    · intro hk
      rcases List.mem_append.mp hk with h1 | h1
      · rw [List.mem_flatMap] at h1
        obtain ⟨r, hr, hkr⟩ := h1
        rw [List.mem_map] at hkr
        obtain ⟨c, hcr, hck⟩ := hkr
        exact Or.inl ⟨r, hr, c, hcr, hck⟩
      · rw [List.mem_map] at h1
        obtain ⟨kv, hkv, hk1⟩ := h1
        rw [List.mem_filter] at hkv
        refine Or.inr ⟨kv, hkv.1, hk1, ?_⟩
        intro n hn
        exact of_decide_eq_true (List.all_eq_true.mp hkv.2 n hn)
    · intro h
      rcases h with ⟨r, hr, c, hcr, hck⟩ | ⟨kv, hkv, hk1, hall⟩
      · exact List.mem_append_left _
          (List.mem_flatMap.mpr ⟨r, hr, List.mem_map.mpr ⟨c, hcr, hck⟩⟩)
      · refine List.mem_append_right _ (List.mem_map.mpr ⟨kv, ?_, hk1⟩)
        rw [List.mem_filter]
        exact ⟨hkv, List.all_eq_true.mpr (fun n hn => decide_eq_true (hall n hn))⟩
  · intro valid skipped
    refine ⟨_, _, sortedComicsOf_eq_partition valid skipped, ?_, ?_⟩
    · intro c hc
      simp [List.mem_filter, List.contains] at hc
      exact hc.2
    · intro c hc
      simp [List.mem_filter, List.contains] at hc
      exact hc.2
  · intro k hsk hrec hsrc
    unfold detectFullState at hrec hsrc
    dsimp only at hrec hsrc
    revert hrec hsrc
    split
    · intro _ hsrc
      exact absurd hsrc (List.not_mem_nil k)
    · split
      · intro _ hsrc
        exact absurd hsrc (List.not_mem_nil k)
      · unfold detectLoop
        intro hrec hsrc
        rcases detectLoop_sourcesOk cfg.similarityThreshold cfg.minSimilarImages
            blacklist _ _ _ _ _ (fun k hk => absurd hk (List.not_mem_nil k))
            k hsrc with h | h
        · exact h hsk
        · exact hrec h

/-- C9 witness: with the cached group over `ka2`/`kb2` still valid, both
keys are marked skippable, neither is recalled during the run (the third
comic matches nothing), and `ka2` is never processed as a source. -/
theorem claim_C9_witness :
    "ka2" ∈ skippedKeysOf 1
      (replayedGroups 5 1 [255]
        (validComicMapOf (validComicsOf ⟨5, 1, 1, none⟩ [comicKa2, comicKb2, comicKf]))
        (invalidatedCache 5 1 (some indexDataC9)).2)
      (invalidatedCache 5 1 (some indexDataC9)).1 ∧
    ¬ "ka2" ∈ (detectFullState ⟨5, 1, 1, none⟩ [255] (some indexDataC9)
        [comicKa2, comicKb2, comicKf]).sources :=
  ⟨by decide,
   (claim_C9 ⟨5, 1, 1, none⟩ [255] (some indexDataC9)
       [comicKa2, comicKb2, comicKf]).2.2 "ka2" (by decide) (by decide)⟩
